import Mathlib

/-!
AGA: scorer, alignment statistics and driver

A shallow embedding of `src/SimpleScorer.h` (the `SimpleScorer` gap costs and
`calcStats`) and of the parts of `src/Aga.cpp` that prepare a query and pick
the `Solution` (`removeGaps`, `runAga`, `ntScoreMatrix`).

Conventions of the embedding:

* a `Sequence` is a `List` of symbols; `s[i]` is `seqAt s i`.  The source
  indexes a `std::vector`, so a read past the end has no defined result; the
  statements below are made about reads inside the sequences (`calcStats`
  reads `ref[i]` for `i < query.size()`, so it needs `|query| ≤ |ref|`);
* `int` values are `Int`; sequence lengths are taken to fit an `int`, so no
  counter wraps.  `size() - 1` is computed in `Int`: for an empty sequence
  the source gets the largest `size_t`, which no `unsigned` index equals, and
  `-1` behaves the same way;
* the weight matrix is a `const int **` handed to the scorer: a lookup
  function `Nat → Nat → Int`.
-/

set_option linter.unusedSectionVars false
set_option linter.unusedVariables false

namespace Aga

/-- Symbol interface used by `SimpleScorer<Sequence>`: what the template
needs from `Sequence::value_type` (`GAP`, `MISSING`, `intRep`, `isAmbiguity`,
`isStopCodon`) together with the overloaded free function `isMisaligned`.
`GAP` and `MISSING` are two different symbols. -/
class Character (χ : Type) where
  GAP : χ
  MISSING : χ
  intRep : χ → Nat
  isAmbiguity : χ → Bool
  isStopCodon : χ → Bool
  isMisaligned : χ → Bool
  gap_ne_missing : GAP ≠ MISSING

/-- Modelled from the spec: `seq::Nucleotide` (declared in `Nucleotide.h`) is
one of A, C, G, T, an ambiguity code, GAP or MISSING. -/
inductive Nucleotide where
  | A | C | G | T
  | M | R | W | S | Y | K | V | H | D | B | N
  | GAP | MISSING
  deriving DecidableEq, Repr

/-- Modelled from the spec: each nucleotide maps to an integer index for the
matrix lookup; A, C, G, T are rows 0..3 of `ntScoreMatrix`. -/
def Nucleotide.intRep : Nucleotide → Nat
  | .A => 0 | .C => 1 | .G => 2 | .T => 3
  | .M => 4 | .R => 5 | .W => 6 | .S => 7 | .Y => 8 | .K => 9
  | .V => 10 | .H => 11 | .D => 12 | .B => 13 | .N => 14
  | .GAP => 15 | .MISSING => 16

/-- Modelled from the spec: the ambiguity codes are the nucleotides other
than A, C, G, T, GAP and MISSING. -/
def Nucleotide.isAmbiguity : Nucleotide → Bool
  | .A | .C | .G | .T | .GAP | .MISSING => false
  | _ => true

/-- Modelled from the spec: `seq::AminoAcid` (declared in `AminoAcid.h`) is
one of the 20 standard residues, the stop codon, X, GAP or MISSING. -/
inductive AminoAcid where
  | A | C | D | E | F | G | H | I | K | L
  | M | N | P | Q | R | S | T | V | W | Y
  | STP | X | GAP | MISSING
  deriving DecidableEq, Repr

/-- Modelled from the spec: each amino acid maps to an integer index. -/
def AminoAcid.intRep : AminoAcid → Nat
  | .A => 0 | .C => 1 | .D => 2 | .E => 3 | .F => 4 | .G => 5 | .H => 6
  | .I => 7 | .K => 8 | .L => 9 | .M => 10 | .N => 11 | .P => 12 | .Q => 13
  | .R => 14 | .S => 15 | .T => 16 | .V => 17 | .W => 18 | .Y => 19
  | .STP => 20 | .X => 21 | .GAP => 22 | .MISSING => 23

/-- `isMisaligned(seq::Nucleotide)`: always false. -/
def isMisalignedNt (_n : Nucleotide) : Bool := false

/-- `isMisaligned(seq::AminoAcid)`: `aa == seq::AminoAcid::X`. -/
def isMisalignedAa (aa : AminoAcid) : Bool := decide (aa = AminoAcid.X)

instance instCharacterNucleotide : Character Nucleotide where
  GAP := Nucleotide.GAP
  MISSING := Nucleotide.MISSING
  intRep := Nucleotide.intRep
  isAmbiguity := Nucleotide.isAmbiguity
  isStopCodon := fun _ => false
  isMisaligned := isMisalignedNt
  gap_ne_missing := by decide

instance instCharacterAminoAcid : Character AminoAcid where
  GAP := AminoAcid.GAP
  MISSING := AminoAcid.MISSING
  intRep := AminoAcid.intRep
  isAmbiguity := fun aa => decide (aa = AminoAcid.X)
  isStopCodon := fun aa => decide (aa = AminoAcid.STP)
  isMisaligned := isMisalignedAa
  gap_ne_missing := by decide

abbrev NTSequence := List Nucleotide

abbrev AASequence := List AminoAcid

/-- `s[i]` on a sequence.  Every statement below reads inside the sequence;
the fallback value is never what a result rests on. -/
def seqAt {χ : Type} [Character χ] (s : List χ) (i : Nat) : χ :=
  s.getD i Character.MISSING

/-- `struct AlignmentStats`. -/
structure AlignmentStats where
  score : Int
  refLength : Int
  begin : Int
  end_ : Int
  coverage : Int
  matchCount : Int
  identityCount : Int
  insertEvents : Int
  insertCount : Int
  deleteEvents : Int
  deleteCount : Int
  frameShifts : Int
  misaligned : Int
  ambiguities : Int
  stopCodons : Int
  deriving DecidableEq, Repr

/-- `AlignmentStats::AlignmentStats()`. -/
def AlignmentStats.default : AlignmentStats :=
  { score := 0, refLength := 0, begin := -1, end_ := -1, coverage := 0,
    matchCount := 0, identityCount := 0, insertEvents := 0, insertCount := 0,
    deleteEvents := 0, deleteCount := 0, frameShifts := 0, misaligned := 0,
    ambiguities := 0, stopCodons := 0 }

/-- `class SimpleScorer`: the four costs and the weight matrix. -/
structure SimpleScorer where
  gapOpenCost_ : Int
  gapExtensionCost_ : Int
  frameShiftCost_ : Int
  misalignmentCost_ : Int
  weightMatrix_ : Nat → Nat → Int

section Scorer

variable {χ : Type} [Character χ] [DecidableEq χ]

/-- `SimpleScorer::scoreOpenRefGap`. -/
def SimpleScorer.scoreOpenRefGap (sc : SimpleScorer) (ref _query : List χ)
    (refI _queryI : Nat) : Int :=
  if (refI : Int) = (ref.length : Int) - 1 then 0 else sc.gapOpenCost_

/-- `SimpleScorer::scoreExtendRefGap`. -/
def SimpleScorer.scoreExtendRefGap (sc : SimpleScorer) (ref _query : List χ)
    (refI _queryI : Nat) (_k : Int) : Int :=
  if (refI : Int) = (ref.length : Int) - 1 then 0 else sc.gapExtensionCost_

/-- `SimpleScorer::scoreOpenQueryGap`. -/
def SimpleScorer.scoreOpenQueryGap (sc : SimpleScorer) (_ref query : List χ)
    (_refI queryI : Nat) : Int :=
  if (queryI : Int) = (query.length : Int) - 1 then 0 else sc.gapOpenCost_

/-- `SimpleScorer::scoreExtendQueryGap`. -/
def SimpleScorer.scoreExtendQueryGap (sc : SimpleScorer) (_ref query : List χ)
    (_refI queryI : Nat) (_k : Int) : Int :=
  if (queryI : Int) = (query.length : Int) - 1 then 0 else sc.gapExtensionCost_

/-- The first loop of `calcStats`, counting `i + 1` down from `query.size()`:
the result is `i + 1` for the largest `i` with `ref[i]` and `query[i]` both
different from MISSING, and 0 when the loop runs out. -/
def findQueryEnd (ref query : List χ) : Nat → Nat
  | 0 => 0
  | i + 1 =>
    if seqAt ref i ≠ Character.MISSING then
      if seqAt query i ≠ Character.MISSING then i + 1
      else findQueryEnd ref query i
    else findQueryEnd ref query i

/-- The variables that live across iterations of the main loop of
`calcStats`, and the per-iteration local `score`. -/
structure Walk where
  result : AlignmentStats
  refGap : Bool
  queryGap : Bool
  queryMissing : Bool
  refMissing : Bool
  refPos : Int
  score : Int
  deriving DecidableEq, Repr

/-- State on entry to the main loop of `calcStats`. -/
def Walk.init : Walk :=
  { result := AlignmentStats.default, refGap := false, queryGap := false,
    queryMissing := true, refMissing := true, refPos := 0, score := 0 }

/-- The `if (ref[i] == GAP) ... else ...` chain of the loop body. -/
def refSide (sc : SimpleScorer) (ref : List χ) (i : Nat) (w : Walk) : Walk :=
  if seqAt ref i = Character.GAP then
    let w : Walk := { w with result.insertCount := w.result.insertCount + 1 }
    let w :=
      if !w.refGap then
        { w with score := w.score + sc.gapOpenCost_,
                 result.insertEvents := w.result.insertEvents + 1 }
      else
        { w with score := w.score + sc.gapExtensionCost_ }
    { w with refGap := true, refMissing := false }
  else if seqAt ref i = Character.MISSING then
    { w with refGap := false, refMissing := true }
  else if Character.isMisaligned (seqAt ref i) then
    if w.refMissing || decide ((i : Int) = (ref.length : Int) - 1)
        || decide (seqAt ref (i + 1) = Character.MISSING) then
      w
    else
      { w with score := w.score + sc.misalignmentCost_,
               result.misaligned := w.result.misaligned + 1 }
  else
    { w with refGap := false, refMissing := false }

/-- The `if (query[i] == GAP) ... else ...` chain of the loop body. -/
def querySide (sc : SimpleScorer) (query : List χ) (i : Nat) (w : Walk) : Walk :=
  if seqAt query i = Character.GAP then
    let w : Walk := { w with result.deleteCount := w.result.deleteCount + 1 }
    let w :=
      if !w.queryGap then
        { w with score := w.score + sc.gapOpenCost_,
                 result.deleteEvents := w.result.deleteEvents + 1 }
      else
        { w with score := w.score + sc.gapExtensionCost_ }
    { w with queryGap := true, queryMissing := false }
  else if seqAt query i = Character.MISSING then
    { w with queryGap := false, queryMissing := true }
  else if Character.isMisaligned (seqAt query i) then
    if w.queryMissing || decide ((i : Int) = (query.length : Int) - 1)
        || decide (seqAt query (i + 1) = Character.MISSING) then
      w
    else
      { w with score := w.score + sc.misalignmentCost_,
               result.misaligned := w.result.misaligned + 1 }
  else
    { w with queryGap := false, queryMissing := false }

/-- The `if (!queryGap && !queryMissing)` block: ambiguity and stop codon
counters. -/
def countQuerySymbol (query : List χ) (i : Nat) (w : Walk) : Walk :=
  if !w.queryGap && !w.queryMissing then
    let w :=
      if Character.isAmbiguity (seqAt query i) then
        { w with result.ambiguities := w.result.ambiguities + 1 }
      else w
    if Character.isStopCodon (seqAt query i) then
      { w with result.stopCodons := w.result.stopCodons + 1 }
    else w
  else w

/-- The `if (!queryGap && !queryMissing && !refGap && !refMissing)` block,
with `scoreVector == nullptr`. -/
def matchColumn (sc : SimpleScorer) (ref query : List χ) (i : Nat) (w : Walk) : Walk :=
  if !w.queryGap && !w.queryMissing && !w.refGap && !w.refMissing then
    let w : Walk := { w with result.matchCount := w.result.matchCount + 1 }
    let w :=
      if !Character.isAmbiguity (seqAt query i) then
        let weight := sc.weightMatrix_ (Character.intRep (seqAt ref i))
          (Character.intRep (seqAt query i))
        { w with score := w.score + weight }
      else w
    let w :=
      if w.result.begin = (-1 : Int) then { w with result.begin := w.refPos } else w
    let w : Walk := { w with result.end_ := w.refPos + 1 }
    if seqAt ref i = seqAt query i then
      { w with result.identityCount := w.result.identityCount + 1 }
    else w
  else w

/-- The tail of the loop body: `result.score += score` and the `refPos`
increment. -/
def closeColumn (w : Walk) : Walk :=
  let w : Walk := { w with result.score := w.result.score + w.score }
  if !w.refGap && !w.refMissing then { w with refPos := w.refPos + 1 } else w

/-- One iteration of the main loop of `calcStats` at column `i`, with
`scoreVector == nullptr`. -/
def body (sc : SimpleScorer) (ref query : List χ) (i : Nat) (w : Walk) : Walk :=
  let w : Walk := { w with score := 0 }
  let w : Walk := refSide sc ref i w
  let w : Walk := querySide sc query i w
  let w : Walk := countQuerySymbol query i w
  let w : Walk := matchColumn sc ref query i w
  closeColumn w

/-- The main loop `for (unsigned i = 0; i < n; ++i)` of `calcStats`. -/
def walk (sc : SimpleScorer) (ref query : List χ) (n : Nat) : Walk :=
  (List.range n).foldl (fun w i => body sc ref query i w) Walk.init

/-- `SimpleScorer::calcStats(ref, query, frameshiftCount)`, which calls the
four-argument overload with `scoreVector == nullptr`. -/
def SimpleScorer.calcStats (sc : SimpleScorer) (ref query : List χ)
    (frameshiftCount : Int) : AlignmentStats :=
  let queryEnd := findQueryEnd ref query query.length
  if queryEnd = 0 then AlignmentStats.default
  else
    let w : Walk := walk sc ref query queryEnd
    let result : AlignmentStats := w.result
    let result : AlignmentStats := { result with
      refLength := w.refPos + ((ref.length : Int) - (queryEnd : Int)) }
    let result : AlignmentStats := { result with coverage := result.matchCount + result.deleteCount }
    let result : AlignmentStats := { result with
      score := result.score + frameshiftCount * sc.frameShiftCost_ }
    { result with frameShifts := frameshiftCount }

/-! ### Vocabulary of the statements -/

/-- Column `i` has both sides different from MISSING. -/
def bothPresent (ref query : List χ) (i : Nat) : Prop :=
  seqAt ref i ≠ Character.MISSING ∧ seqAt query i ≠ Character.MISSING

instance bothPresentDecidable (ref query : List χ) (i : Nat) :
    Decidable (bothPresent ref query i) := by
  unfold bothPresent
  infer_instance

/-- The number `qe` is the index one past the last column of the pair where
both sides are different from MISSING, and 0 when no column is such. -/
def IsQueryEnd (ref query : List χ) (qe : Nat) : Prop :=
  qe ≤ query.length
    ∧ (qe ≠ 0 → bothPresent ref query (qe - 1))
    ∧ (∀ i, i < query.length → qe ≤ i → ¬ bothPresent ref query i)

instance isQueryEndDecidable (ref query : List χ) (qe : Nat) :
    Decidable (IsQueryEnd ref query qe) := by
  unfold IsQueryEnd
  infer_instance

/-- The last symbol among the first `n` of `s` that is GAP, MISSING or not a
misalignment symbol: what is found reading back from column `n - 1` and
stepping over misalignment symbols; `none` when there is no such symbol. -/
def lastPlain (s : List χ) : Nat → Option χ
  | 0 => none
  | n + 1 =>
    if seqAt s n = Character.GAP ∨ seqAt s n = Character.MISSING
        ∨ Character.isMisaligned (seqAt s n) = false then
      some (seqAt s n)
    else lastPlain s n

/-- Column `i` of `s` is resolved: reading back from column `i` and stepping
over misalignment symbols ends on a symbol that is neither GAP nor MISSING. -/
def resolvedAt (s : List χ) (i : Nat) : Prop :=
  ∃ c, lastPlain s (i + 1) = some c ∧ c ≠ Character.GAP ∧ c ≠ Character.MISSING

instance resolvedAtDecidable (s : List χ) (i : Nat) : Decidable (resolvedAt s i) :=
  match h : lastPlain s (i + 1) with
  | none => isFalse (by
      intro hr
      obtain ⟨c, hc, _⟩ := hr
      rw [h] at hc
      cases hc)
  | some c =>
    if hc : c ≠ Character.GAP ∧ c ≠ Character.MISSING then
      isTrue ⟨c, h, hc.1, hc.2⟩
    else isFalse (by
      intro hr
      obtain ⟨d, hd, hd2⟩ := hr
      rw [h] at hd
      cases hd
      exact hc hd2)

/-- Lengths of the maximal runs of consecutive GAP symbols of a sequence, in
order; `cur` is the length of the run that is open on entry. -/
def gapRunsFrom (cur : Nat) : List χ → List Nat
  | [] => if cur = 0 then [] else [cur]
  | c :: cs =>
    if c = Character.GAP then gapRunsFrom (cur + 1) cs
    else if cur = 0 then gapRunsFrom 0 cs
    else cur :: gapRunsFrom 0 cs

/-- Lengths of the maximal runs of consecutive GAP symbols of `s`. -/
def gapRuns (s : List χ) : List Nat :=
  gapRunsFrom 0 s

/-- Affine cost of one gap run of length `L`: `gapOpen + (L - 1) * gapExtend`. -/
def affineCost (sc : SimpleScorer) (L : Nat) : Int :=
  sc.gapOpenCost_ + ((L : Int) - 1) * sc.gapExtensionCost_

/-- Sum of the affine costs of the maximal GAP runs of `s`. -/
def gapRunsCost (sc : SimpleScorer) (s : List χ) : Int :=
  ((gapRuns s).map (affineCost sc)).sum

/-- Gap charge of column `i` of one side: nothing when `s[i]` is not GAP,
`gapExtend` when `s[i]` and `s[i-1]` are both GAP, `gapOpen` for a GAP that
starts a run. -/
def gapCharge (sc : SimpleScorer) (s : List χ) (i : Nat) : Int :=
  if seqAt s i = Character.GAP then
    if i ≠ 0 ∧ seqAt s (i - 1) = Character.GAP then sc.gapExtensionCost_
    else sc.gapOpenCost_
  else 0

/-- The gap charge of column `i` of `s` when the side enters column 0 with
its gap flag equal to `prev`; `gapCharge` is the case `prev = false`. -/
def gapChargeFrom (sc : SimpleScorer) (prev : Bool) (s : List χ) (i : Nat) : Int :=
  if seqAt s i = Character.GAP then
    if (i = 0 ∧ prev = true) ∨ (i ≠ 0 ∧ seqAt s (i - 1) = Character.GAP) then
      sc.gapExtensionCost_
    else sc.gapOpenCost_
  else 0

/-- Weight of column `i` when both sides are neither GAP nor MISSING and the
query symbol is not an ambiguity, else 0. -/
def matchWeight (sc : SimpleScorer) (ref query : List χ) (i : Nat) : Int :=
  if seqAt ref i ≠ Character.GAP ∧ seqAt ref i ≠ Character.MISSING
      ∧ seqAt query i ≠ Character.GAP ∧ seqAt query i ≠ Character.MISSING
      ∧ Character.isAmbiguity (seqAt query i) = false then
    sc.weightMatrix_ (Character.intRep (seqAt ref i)) (Character.intRep (seqAt query i))
  else 0

end Scorer

/-- `ntScoreMatrix(M, E)`: the 4x4 table with `M` on the diagonal and `E`
elsewhere, as rows A, C, G, T. -/
def ntScoreMatrixRows (M E : Int) : List (List Int) :=
  [[M, E, E, E], [E, M, E, E], [E, E, M, E], [E, E, E, M]]

/-- The table of `ntScoreMatrix(M, E)` as the lookup `matrix[a][b]`.  The
table has four rows of four entries; a lookup outside it is not one the
statements below rest on. -/
def ntScoreMatrix (M E : Int) : Nat → Nat → Int :=
  fun a b => ((ntScoreMatrixRows M E).getD a []).getD b 0

/-- `removeGaps`, the loop at index `i`.  When `s[i]` is GAP or MISSING the
source erases it and does `--i`, and the loop header then does `++i`: the
next iteration looks at the same index of the shorter sequence. -/
def removeGapsLoop (s : NTSequence) (i : Nat) : NTSequence :=
  if h : i < s.length then
    if s[i] = Nucleotide.GAP ∨ s[i] = Nucleotide.MISSING then
      removeGapsLoop (s.eraseIdx i) i
    else
      removeGapsLoop s (i + 1)
  else s
termination_by s.length - i
decreasing_by
  all_goals simp_wf
  · rw [List.length_eraseIdx]
    simp [h]
    omega
  · omega

/-- `removeGaps(seq::NTSequence& s)`: the value of `s` when it returns. -/
def removeGaps (s : NTSequence) : NTSequence :=
  removeGapsLoop s 0

/-- Modelled from the spec: the kinds of `CigarItem` (declared in `Cigar.h`):
both consumed, reference gap, query gap, and the whole reference skipped. -/
inductive CigarOp where
  | Match | RefGap | QueryGap | RefSkipped
  deriving DecidableEq, Repr

/-- Modelled from the spec: `CigarItem(op, length)`, one edit operation with
its run length. -/
structure CigarItem where
  op : CigarOp
  length : Nat
  deriving DecidableEq, Repr

/-- Modelled from the spec: a `Cigar` is the ordered sequence of its items. -/
abbrev Cigar := List CigarItem

/-- Modelled from the spec: `Aligner::Solution` is an integer score and a
Cigar; a default-constructed one has an empty Cigar. -/
structure Solution where
  score : Int
  cigar : Cigar
  deriving DecidableEq, Repr

/-- What one pass through `runAga` settles before it writes anything: the
`Solution` it goes on with, and the queries it handed to `aligner.align`. -/
structure Aligned where
  solution : Solution
  alignCalls : List NTSequence
  deriving DecidableEq, Repr

/-- `runAga`, from reading the query to the choice of `solution`.  The
stream read and `sampleAmbiguities` belong to other files: `readOk` is the
state of the stream after `q >> query`, `rawQuery` what was read, and
`sampleAmbiguities` the effect of that call.  `refSize` is `ref.size()` and
`align query` stands for `aligner.align(ref, NTSequence6AA(query), 0)`.
The result is `none` when the function returns at `if (!q)`. -/
def runAga (align : NTSequence → Solution) (refSize : Nat)
    (sampleAmbiguities : NTSequence → NTSequence)
    (readOk : Bool) (rawQuery : NTSequence) : Option Aligned :=
  let query := removeGaps (sampleAmbiguities rawQuery)
  if !readOk then none
  else if query.length > 0 then
    some { solution := align query, alignCalls := [query] }
  else
    let solution : Solution := { score := 0, cigar := [] }
    let solution : Solution := { solution with score := 0 }
    let solution : Solution :=
      { solution with cigar := solution.cigar ++ [CigarItem.mk CigarOp.RefSkipped refSize] }
    some { solution := solution, alignCalls := [] }

/-! ## Theorems -/

section GapCosts

/-- C1: for `ref` and `query` with in-range `refI`, `queryI` (so both
sequences are non-empty), the
reference gap costs are 0 at `refI = |ref| - 1` and `gapOpen`, `gapExtend`
elsewhere, whatever `queryI` and `k` are; the query gap costs are 0 at
`queryI = |query| - 1` and `gapOpen`, `gapExtend` elsewhere, whatever `refI`
and `k` are. -/
theorem scoreGap_trailing_edge {χ : Type} (sc : SimpleScorer) (ref query : List χ)
    (refI queryI : Nat) (k : Int)
    (hri : refI < ref.length) (hqi : queryI < query.length) :
    sc.scoreOpenRefGap ref query refI queryI
        = (if refI = ref.length - 1 then 0 else sc.gapOpenCost_)
      ∧ sc.scoreExtendRefGap ref query refI queryI k
        = (if refI = ref.length - 1 then 0 else sc.gapExtensionCost_)
      ∧ sc.scoreOpenQueryGap ref query refI queryI
        = (if queryI = query.length - 1 then 0 else sc.gapOpenCost_)
      ∧ sc.scoreExtendQueryGap ref query refI queryI k
        = (if queryI = query.length - 1 then 0 else sc.gapExtensionCost_) := by
  have h1 : ((refI : Int) = (ref.length : Int) - 1) ↔ refI = ref.length - 1 := by
    omega
  have h2 : ((queryI : Int) = (query.length : Int) - 1) ↔ queryI = query.length - 1 := by
    omega
  simp only [SimpleScorer.scoreOpenRefGap, SimpleScorer.scoreExtendRefGap,
    SimpleScorer.scoreOpenQueryGap, SimpleScorer.scoreExtendQueryGap, h1, h2]
  exact ⟨trivial, trivial, trivial, trivial⟩

/-- C1 at a concrete input: costs -10 and -1, reference ACGT, query ACG,
`refI = 3` (the last reference index) and `queryI = 1`. -/
theorem scoreGap_trailing_edge_witness :
    (SimpleScorer.mk (-10) (-1) 0 0 (ntScoreMatrix 2 (-2))).scoreOpenRefGap
        [Nucleotide.A, .C, .G, .T] [Nucleotide.A, .C, .G] 3 1 = 0
      ∧ (SimpleScorer.mk (-10) (-1) 0 0 (ntScoreMatrix 2 (-2))).scoreExtendRefGap
        [Nucleotide.A, .C, .G, .T] [Nucleotide.A, .C, .G] 3 1 7 = 0
      ∧ (SimpleScorer.mk (-10) (-1) 0 0 (ntScoreMatrix 2 (-2))).scoreOpenQueryGap
        [Nucleotide.A, .C, .G, .T] [Nucleotide.A, .C, .G] 3 1 = -10
      ∧ (SimpleScorer.mk (-10) (-1) 0 0 (ntScoreMatrix 2 (-2))).scoreExtendQueryGap
        [Nucleotide.A, .C, .G, .T] [Nucleotide.A, .C, .G] 3 1 7 = -1 :=
  scoreGap_trailing_edge (SimpleScorer.mk (-10) (-1) 0 0 (ntScoreMatrix 2 (-2)))
    [Nucleotide.A, .C, .G, .T] [Nucleotide.A, .C, .G] 3 1 7
    (by decide) (by decide)

end GapCosts

section Driver

/-- The symbols `removeGaps` keeps: neither GAP nor MISSING. -/
theorem removeGapsLoop_eq (s : NTSequence) (i : Nat) :
    removeGapsLoop s i = s.take i ++ (s.drop i).filter
      (fun c => decide (c ≠ Nucleotide.GAP ∧ c ≠ Nucleotide.MISSING)) := by
  induction s, i using removeGapsLoop.induct with
  | case1 s i h hg ih =>
    rw [removeGapsLoop, dif_pos h, if_pos hg, ih]
    have hd : s.drop i = s[i] :: s.drop (i + 1) := List.drop_eq_getElem_cons h
    have hf : decide (s[i] ≠ Nucleotide.GAP ∧ s[i] ≠ Nucleotide.MISSING) = false := by
      rcases hg with hg | hg <;> simp [hg]
    rw [hd, List.filter_cons_of_neg (by simp [hf])]
    have ht : (s.eraseIdx i).take i = s.take i := by
      rw [List.eraseIdx_eq_take_drop_succ, List.take_append_of_le_length (by simp; omega)]
      simp
    have hdr : (s.eraseIdx i).drop i = s.drop (i + 1) := by
      rw [List.eraseIdx_eq_take_drop_succ]
      rw [List.drop_append_of_le_length (by simp; omega)]
      simp [List.drop_take]
    rw [ht, hdr]
  | case2 s i h hg ih =>
    rw [removeGapsLoop, dif_pos h, if_neg hg, ih]
    have hd : s.drop i = s[i] :: s.drop (i + 1) := List.drop_eq_getElem_cons h
    have hf : decide (s[i] ≠ Nucleotide.GAP ∧ s[i] ≠ Nucleotide.MISSING) = true := by
      simpa [not_or] using hg
    rw [hd, List.take_succ, List.getElem?_eq_getElem h]
    simp only [List.filter_cons, hf, if_true, Option.toList, List.append_assoc,
      List.singleton_append]
  | case3 s i h =>
    rw [removeGapsLoop, dif_neg h]
    have : s.length ≤ i := by omega
    simp [List.take_of_length_le this, List.drop_of_length_le this]

/-- C9: `removeGaps` returns (the model is a total function), and it leaves
exactly the symbols of `s` that are neither GAP nor MISSING, in their order;
so no GAP or MISSING is left and a second call changes nothing. -/
theorem removeGaps_eq_filter (s : NTSequence) :
    removeGaps s = s.filter (fun c => decide (c ≠ Nucleotide.GAP ∧ c ≠ Nucleotide.MISSING))
      ∧ (∀ c ∈ removeGaps s, c ≠ Nucleotide.GAP ∧ c ≠ Nucleotide.MISSING)
      ∧ removeGaps (removeGaps s) = removeGaps s := by
  have h : ∀ t : NTSequence, removeGaps t
      = t.filter (fun c => decide (c ≠ Nucleotide.GAP ∧ c ≠ Nucleotide.MISSING)) := by
    intro t
    simp [removeGaps, removeGapsLoop_eq]
  refine ⟨h s, ?_, ?_⟩
  · intro c hc
    rw [h s, List.mem_filter] at hc
    simpa using hc.2
  · rw [h (removeGaps s), h s, List.filter_filter]
    simp

/-- C8: when the stream read succeeded and the query is empty after
`sampleAmbiguities` and `removeGaps`, `runAga` hands nothing to the aligner
and goes on with score 0 and the one-item Cigar `RefSkipped(refSize)`; when
the query is not empty, it goes on with what `aligner.align` returned for
that query. -/
theorem runAga_solution (align : NTSequence → Solution) (refSize : Nat)
    (sampleAmbiguities : NTSequence → NTSequence) (rawQuery : NTSequence) :
    (removeGaps (sampleAmbiguities rawQuery) = [] →
        runAga align refSize sampleAmbiguities true rawQuery
          = some { solution := { score := 0,
                                 cigar := [CigarItem.mk CigarOp.RefSkipped refSize] },
                   alignCalls := [] })
      ∧ (removeGaps (sampleAmbiguities rawQuery) ≠ [] →
        runAga align refSize sampleAmbiguities true rawQuery
          = some { solution := align (removeGaps (sampleAmbiguities rawQuery)),
                   alignCalls := [removeGaps (sampleAmbiguities rawQuery)] }) := by
  constructor
  · intro h
    simp [runAga, h]
  · intro h
    have hpos : 0 < (removeGaps (sampleAmbiguities rawQuery)).length :=
      List.length_pos.mpr h
    simp [runAga, hpos]

/-- C9 at a concrete sequence: `A - C ? - T` (`?` for MISSING) becomes ACT. -/
theorem removeGaps_eq_filter_witness :
    removeGaps [Nucleotide.A, .GAP, .C, .MISSING, .GAP, .T] = [Nucleotide.A, .C, .T] :=
  (removeGaps_eq_filter [Nucleotide.A, .GAP, .C, .MISSING, .GAP, .T]).1.trans (by decide)

/-- C8 at concrete inputs, with an aligner that answers score 7 and one
Match over the query: the raw query `- ?` is empty after gap removal and
gives `RefSkipped(4)` with no call of the aligner; the raw query `A -` gives
the aligner's answer for `A`. -/
theorem runAga_solution_witness :
    runAga (fun q => { score := 7, cigar := [CigarItem.mk CigarOp.Match q.length] }) 4
        (fun q => q) true [Nucleotide.GAP, .MISSING]
        = some { solution := { score := 0,
                               cigar := [CigarItem.mk CigarOp.RefSkipped 4] },
                 alignCalls := [] }
      ∧ runAga (fun q => { score := 7, cigar := [CigarItem.mk CigarOp.Match q.length] }) 4
        (fun q => q) true [Nucleotide.A, .GAP]
        = some { solution := { score := 7, cigar := [CigarItem.mk CigarOp.Match 1] },
                 alignCalls := [[Nucleotide.A]] } := by
  have e1 : removeGaps [Nucleotide.GAP, .MISSING] = [] := by
    simp [removeGaps, removeGapsLoop_eq]
  have e2 : removeGaps [Nucleotide.A, .GAP] = [Nucleotide.A] := by
    simp [removeGaps, removeGapsLoop_eq]
  constructor
  · exact (runAga_solution _ 4 (fun q => q) [Nucleotide.GAP, .MISSING]).1 e1
  · have h := (runAga_solution
      (fun q => { score := 7, cigar := [CigarItem.mk CigarOp.Match q.length] }) 4
      (fun q => q) [Nucleotide.A, .GAP]).2 (by rw [e2]; decide)
    rw [h, e2]
    rfl

end Driver

section WalkSteps

variable {χ : Type} [Character χ] [DecidableEq χ]

theorem walk_zero (sc : SimpleScorer) (ref query : List χ) :
    walk sc ref query 0 = Walk.init := by
  simp [walk]

theorem walk_succ (sc : SimpleScorer) (ref query : List χ) (n : Nat) :
    walk sc ref query (n + 1) = body sc ref query n (walk sc ref query n) := by
  simp [walk, List.range_succ, List.foldl_append]

/-! The effect of one iteration on each variable. -/

theorem body_refGap (sc : SimpleScorer) (ref query : List χ) (i : Nat) (w : Walk) :
    (body sc ref query i w).refGap =
      (if seqAt ref i = Character.GAP then true
       else if seqAt ref i = Character.MISSING then false
       else if Character.isMisaligned (seqAt ref i) then w.refGap else false) := by
  simp only [body, closeColumn, matchColumn, countQuerySymbol, querySide, refSide]
  simp only [apply_ite Walk.refGap, ite_self]

theorem body_refMissing (sc : SimpleScorer) (ref query : List χ) (i : Nat) (w : Walk) :
    (body sc ref query i w).refMissing =
      (if seqAt ref i = Character.GAP then false
       else if seqAt ref i = Character.MISSING then true
       else if Character.isMisaligned (seqAt ref i) then w.refMissing else false) := by
  simp only [body, closeColumn, matchColumn, countQuerySymbol, querySide, refSide]
  simp only [apply_ite Walk.refMissing, ite_self]

theorem body_queryGap (sc : SimpleScorer) (ref query : List χ) (i : Nat) (w : Walk) :
    (body sc ref query i w).queryGap =
      (if seqAt query i = Character.GAP then true
       else if seqAt query i = Character.MISSING then false
       else if Character.isMisaligned (seqAt query i) then w.queryGap else false) := by
  simp only [body, closeColumn, matchColumn, countQuerySymbol, querySide, refSide]
  simp only [apply_ite Walk.queryGap, ite_self]

theorem body_queryMissing (sc : SimpleScorer) (ref query : List χ) (i : Nat) (w : Walk) :
    (body sc ref query i w).queryMissing =
      (if seqAt query i = Character.GAP then false
       else if seqAt query i = Character.MISSING then true
       else if Character.isMisaligned (seqAt query i) then w.queryMissing else false) := by
  simp only [body, closeColumn, matchColumn, countQuerySymbol, querySide, refSide]
  simp only [apply_ite Walk.queryMissing, ite_self]

theorem body_insertCount (sc : SimpleScorer) (ref query : List χ) (i : Nat) (w : Walk) :
    (body sc ref query i w).result.insertCount =
      w.result.insertCount + (if seqAt ref i = Character.GAP then 1 else 0) := by
  simp only [body, closeColumn, matchColumn, countQuerySymbol, querySide, refSide]
  simp only [apply_ite Walk.result, apply_ite AlignmentStats.insertCount, ite_self]
  split_ifs <;> simp

theorem body_insertEvents (sc : SimpleScorer) (ref query : List χ) (i : Nat) (w : Walk) :
    (body sc ref query i w).result.insertEvents =
      w.result.insertEvents +
        (if seqAt ref i = Character.GAP ∧ w.refGap = false then 1 else 0) := by
  simp only [body, closeColumn, matchColumn, countQuerySymbol, querySide, refSide]
  simp only [apply_ite Walk.result, apply_ite AlignmentStats.insertEvents, ite_self]
  split_ifs <;> simp_all

theorem body_deleteCount (sc : SimpleScorer) (ref query : List χ) (i : Nat) (w : Walk) :
    (body sc ref query i w).result.deleteCount =
      w.result.deleteCount + (if seqAt query i = Character.GAP then 1 else 0) := by
  simp only [body, closeColumn, matchColumn, countQuerySymbol, querySide, refSide]
  simp only [apply_ite Walk.result, apply_ite AlignmentStats.deleteCount, ite_self]
  split_ifs <;> simp

theorem body_deleteEvents (sc : SimpleScorer) (ref query : List χ) (i : Nat) (w : Walk) :
    (body sc ref query i w).result.deleteEvents =
      w.result.deleteEvents +
        (if seqAt query i = Character.GAP ∧ w.queryGap = false then 1 else 0) := by
  simp only [body, closeColumn, matchColumn, countQuerySymbol, querySide, refSide]
  simp only [apply_ite Walk.result, apply_ite AlignmentStats.deleteEvents,
    apply_ite Walk.queryGap, ite_self]
  split_ifs <;> simp_all

theorem body_refPos (sc : SimpleScorer) (ref query : List χ) (i : Nat) (w : Walk) :
    (body sc ref query i w).refPos =
      w.refPos + (if (body sc ref query i w).refGap = false
        ∧ (body sc ref query i w).refMissing = false then 1 else 0) := by
  simp only [body, closeColumn, matchColumn, countQuerySymbol, querySide, refSide]
  simp only [apply_ite Walk.refPos, apply_ite Walk.refGap, apply_ite Walk.refMissing, ite_self]
  split_ifs <;> simp_all

theorem body_matchCount (sc : SimpleScorer) (ref query : List χ) (i : Nat) (w : Walk) :
    (body sc ref query i w).result.matchCount =
      w.result.matchCount + (if (body sc ref query i w).refGap = false
        ∧ (body sc ref query i w).refMissing = false
        ∧ (body sc ref query i w).queryGap = false
        ∧ (body sc ref query i w).queryMissing = false then 1 else 0) := by
  simp only [body, closeColumn, matchColumn, countQuerySymbol, querySide, refSide]
  simp only [apply_ite Walk.result, apply_ite AlignmentStats.matchCount,
    apply_ite Walk.refGap, apply_ite Walk.refMissing, apply_ite Walk.queryGap,
    apply_ite Walk.queryMissing, ite_self]
  split_ifs <;> simp_all

theorem body_misaligned_of_plain (sc : SimpleScorer) (ref query : List χ) (i : Nat)
    (w : Walk) (hr : Character.isMisaligned (seqAt ref i) = false)
    (hq : Character.isMisaligned (seqAt query i) = false) :
    (body sc ref query i w).result.misaligned = w.result.misaligned := by
  simp only [body, closeColumn, matchColumn, countQuerySymbol, querySide, refSide, hr, hq]
  simp only [apply_ite Walk.result, apply_ite AlignmentStats.misaligned, ite_self]
  split_ifs <;> simp_all

theorem closeColumn_result_score (w : Walk) :
    (closeColumn w).result.score = w.result.score + w.score := by
  simp only [closeColumn]
  split_ifs <;> rfl

theorem matchColumn_result_score (sc : SimpleScorer) (ref query : List χ) (i : Nat)
    (w : Walk) : (matchColumn sc ref query i w).result.score = w.result.score := by
  simp only [matchColumn]
  split_ifs <;> rfl

theorem matchColumn_score (sc : SimpleScorer) (ref query : List χ) (i : Nat) (w : Walk) :
    (matchColumn sc ref query i w).score = w.score +
      (if w.queryGap = false ∧ w.queryMissing = false ∧ w.refGap = false
          ∧ w.refMissing = false ∧ Character.isAmbiguity (seqAt query i) = false then
        sc.weightMatrix_ (Character.intRep (seqAt ref i))
          (Character.intRep (seqAt query i))
       else 0) := by
  simp only [matchColumn]
  split_ifs <;> simp_all

theorem countQuerySymbol_frame (query : List χ) (i : Nat) (w : Walk) :
    (countQuerySymbol query i w).score = w.score
      ∧ (countQuerySymbol query i w).result.score = w.result.score
      ∧ (countQuerySymbol query i w).refGap = w.refGap
      ∧ (countQuerySymbol query i w).refMissing = w.refMissing
      ∧ (countQuerySymbol query i w).queryGap = w.queryGap
      ∧ (countQuerySymbol query i w).queryMissing = w.queryMissing := by
  simp only [countQuerySymbol]
  split_ifs <;> simp

theorem querySide_of_plain (sc : SimpleScorer) (query : List χ) (i : Nat) (w : Walk)
    (hq : Character.isMisaligned (seqAt query i) = false) :
    (querySide sc query i w).score = w.score
        + (if seqAt query i = Character.GAP then
            (if w.queryGap = true then sc.gapExtensionCost_ else sc.gapOpenCost_) else 0)
      ∧ (querySide sc query i w).result.score = w.result.score
      ∧ (querySide sc query i w).refGap = w.refGap
      ∧ (querySide sc query i w).refMissing = w.refMissing
      ∧ (querySide sc query i w).queryGap = decide (seqAt query i = Character.GAP)
      ∧ (querySide sc query i w).queryMissing
          = decide (seqAt query i = Character.MISSING) := by
  have hgm := Character.gap_ne_missing (χ := χ)
  simp only [querySide, hq]
  split_ifs <;> simp_all

theorem refSide_of_plain (sc : SimpleScorer) (ref : List χ) (i : Nat) (w : Walk)
    (hr : Character.isMisaligned (seqAt ref i) = false) :
    (refSide sc ref i w).score = w.score
        + (if seqAt ref i = Character.GAP then
            (if w.refGap = true then sc.gapExtensionCost_ else sc.gapOpenCost_) else 0)
      ∧ (refSide sc ref i w).result.score = w.result.score
      ∧ (refSide sc ref i w).queryGap = w.queryGap
      ∧ (refSide sc ref i w).queryMissing = w.queryMissing
      ∧ (refSide sc ref i w).refGap = decide (seqAt ref i = Character.GAP)
      ∧ (refSide sc ref i w).refMissing
          = decide (seqAt ref i = Character.MISSING) := by
  have hgm := Character.gap_ne_missing (χ := χ)
  simp only [refSide, hr]
  split_ifs <;> simp_all

/-- Score of one column when neither side holds a misalignment symbol: the
gap charges of the two sides and the weight of a match column. -/
theorem body_score_of_plain (sc : SimpleScorer) (ref query : List χ) (i : Nat)
    (w : Walk) (hr : Character.isMisaligned (seqAt ref i) = false)
    (hq : Character.isMisaligned (seqAt query i) = false) :
    (body sc ref query i w).result.score = w.result.score
      + (if seqAt ref i = Character.GAP then
          (if w.refGap = true then sc.gapExtensionCost_ else sc.gapOpenCost_) else 0)
      + (if seqAt query i = Character.GAP then
          (if w.queryGap = true then sc.gapExtensionCost_ else sc.gapOpenCost_) else 0)
      + matchWeight sc ref query i := by
  obtain ⟨r1, r2, r3, r4, r5, r6⟩ := refSide_of_plain sc ref i { w with score := 0 } hr
  obtain ⟨q1, q2, q3, q4, q5, q6⟩ :=
    querySide_of_plain sc query i (refSide sc ref i { w with score := 0 }) hq
  obtain ⟨c1, c2, c3, c4, c5, c6⟩ :=
    countQuerySymbol_frame query i
      (querySide sc query i (refSide sc ref i { w with score := 0 }))
  simp only [body]
  rw [closeColumn_result_score, matchColumn_result_score, matchColumn_score,
    c1, c2, c3, c4, c5, c6, q1, q2, q3, q4, q5, q6, r1, r2, r3, r5, r6]
  simp only [matchWeight, decide_eq_false_iff_not, zero_add, ne_eq]
  have e : (¬seqAt query i = Character.GAP ∧ ¬seqAt query i = Character.MISSING
        ∧ ¬seqAt ref i = Character.GAP ∧ ¬seqAt ref i = Character.MISSING
        ∧ Character.isAmbiguity (seqAt query i) = false)
      ↔ (¬seqAt ref i = Character.GAP ∧ ¬seqAt ref i = Character.MISSING
        ∧ ¬seqAt query i = Character.GAP ∧ ¬seqAt query i = Character.MISSING
        ∧ Character.isAmbiguity (seqAt query i) = false) := by
    tauto
  simp only [e]
  ring

end WalkSteps

section WalkInvariants

variable {χ : Type} [Character χ] [DecidableEq χ]

/-- The reference flags after `n` columns, read off the sequence. -/
theorem walk_refFlags (sc : SimpleScorer) (ref query : List χ) (n : Nat) :
    (walk sc ref query n).refGap = decide (lastPlain ref n = some Character.GAP)
      ∧ (walk sc ref query n).refMissing
        = decide (lastPlain ref n = none ∨ lastPlain ref n = some Character.MISSING) := by
  have hgm := Character.gap_ne_missing (χ := χ)
  induction n with
  | zero => simp [walk_zero, Walk.init, lastPlain]
  | succ n ih =>
    rw [walk_succ, body_refGap, body_refMissing, ih.1, ih.2]
    simp only [lastPlain]
    split_ifs <;> simp_all

/-- The query flags after `n` columns, read off the sequence. -/
theorem walk_queryFlags (sc : SimpleScorer) (ref query : List χ) (n : Nat) :
    (walk sc ref query n).queryGap = decide (lastPlain query n = some Character.GAP)
      ∧ (walk sc ref query n).queryMissing
        = decide (lastPlain query n = none ∨ lastPlain query n = some Character.MISSING) := by
  have hgm := Character.gap_ne_missing (χ := χ)
  induction n with
  | zero => simp [walk_zero, Walk.init, lastPlain]
  | succ n ih =>
    rw [walk_succ, body_queryGap, body_queryMissing, ih.1, ih.2]
    simp only [lastPlain]
    split_ifs <;> simp_all

theorem countP_range_succ (p : Nat → Bool) (n : Nat) :
    ((List.range (n + 1)).countP p : Int)
      = ((List.range n).countP p : Int) + (if p n = true then 1 else 0) := by
  rw [List.range_succ, List.countP_append]
  by_cases h : p n = true <;> simp [List.countP_cons, h]

theorem walk_insertCount (sc : SimpleScorer) (ref query : List χ) (n : Nat) :
    (walk sc ref query n).result.insertCount
      = ((List.range n).countP (fun i => decide (seqAt ref i = Character.GAP)) : Nat) := by
  induction n with
  | zero => simp [walk_zero, Walk.init, AlignmentStats.default]
  | succ n ih =>
    rw [walk_succ, body_insertCount, ih, countP_range_succ]
    simp

theorem walk_deleteCount (sc : SimpleScorer) (ref query : List χ) (n : Nat) :
    (walk sc ref query n).result.deleteCount
      = ((List.range n).countP (fun i => decide (seqAt query i = Character.GAP)) : Nat) := by
  induction n with
  | zero => simp [walk_zero, Walk.init, AlignmentStats.default]
  | succ n ih =>
    rw [walk_succ, body_deleteCount, ih, countP_range_succ]
    simp

theorem walk_insertEvents (sc : SimpleScorer) (ref query : List χ) (n : Nat) :
    (walk sc ref query n).result.insertEvents
      = ((List.range n).countP (fun i => decide (seqAt ref i = Character.GAP
          ∧ lastPlain ref i ≠ some Character.GAP)) : Nat) := by
  induction n with
  | zero => simp [walk_zero, Walk.init, AlignmentStats.default]
  | succ n ih =>
    rw [walk_succ, body_insertEvents, ih, countP_range_succ, (walk_refFlags sc ref query n).1]
    simp

theorem walk_deleteEvents (sc : SimpleScorer) (ref query : List χ) (n : Nat) :
    (walk sc ref query n).result.deleteEvents
      = ((List.range n).countP (fun i => decide (seqAt query i = Character.GAP
          ∧ lastPlain query i ≠ some Character.GAP)) : Nat) := by
  induction n with
  | zero => simp [walk_zero, Walk.init, AlignmentStats.default]
  | succ n ih =>
    rw [walk_succ, body_deleteEvents, ih, countP_range_succ,
      (walk_queryFlags sc ref query n).1]
    simp

theorem resolvedAt_iff_flags (sc : SimpleScorer) (ref query : List χ) (n : Nat) :
    ((walk sc ref query (n + 1)).refGap = false
      ∧ (walk sc ref query (n + 1)).refMissing = false) ↔ resolvedAt ref n := by
  rw [(walk_refFlags sc ref query (n + 1)).1, (walk_refFlags sc ref query (n + 1)).2]
  unfold resolvedAt
  cases h : lastPlain ref (n + 1) with
  | none => simp
  | some c => simp

theorem walk_refPos (sc : SimpleScorer) (ref query : List χ) (n : Nat) :
    (walk sc ref query n).refPos
      = ((List.range n).countP (fun i => decide (resolvedAt ref i)) : Nat) := by
  induction n with
  | zero => simp [walk_zero, Walk.init]
  | succ n ih =>
    have h := body_refPos sc ref query n (walk sc ref query n)
    rw [← walk_succ] at h
    rw [h, ih, countP_range_succ]
    simp only [resolvedAt_iff_flags, decide_eq_true_eq]

end WalkInvariants

section QueryEnd

variable {χ : Type} [Character χ] [DecidableEq χ]

theorem findQueryEnd_eq_of_le (ref query : List χ) (qe : Nat)
    (h : IsQueryEnd ref query qe) (m : Nat) (hm : m ≤ query.length) (hqm : qe ≤ m) :
    findQueryEnd ref query m = qe := by
  induction m with
  | zero =>
    have h0 : qe = 0 := by omega
    simp [findQueryEnd, h0]
  | succ m ih =>
    by_cases he : qe = m + 1
    · have hb := h.2.1 (by omega)
      rw [he] at hb
      simp only [Nat.add_sub_cancel] at hb
      simp only [findQueryEnd, hb.1, hb.2, ne_eq, not_false_eq_true, if_true, he]
    · have hnb := h.2.2 m (by omega) (by omega)
      have ih2 := ih (by omega) (by omega)
      unfold bothPresent at hnb
      simp only [findQueryEnd]
      split_ifs with h1 h2
      · exact absurd ⟨h1, h2⟩ hnb
      · exact ih2
      · exact ih2

/-- The first loop of `calcStats` computes the index described by
`IsQueryEnd`. -/
theorem findQueryEnd_eq (ref query : List χ) (qe : Nat) (h : IsQueryEnd ref query qe) :
    findQueryEnd ref query query.length = qe :=
  findQueryEnd_eq_of_le ref query qe h query.length (le_refl _) h.1

theorem findQueryEnd_le (ref query : List χ) (m : Nat) : findQueryEnd ref query m ≤ m := by
  induction m with
  | zero => simp [findQueryEnd]
  | succ m ih =>
    simp only [findQueryEnd]
    split_ifs <;> omega

theorem findQueryEnd_spec (ref query : List χ) (m : Nat) :
    (findQueryEnd ref query m ≠ 0 → bothPresent ref query (findQueryEnd ref query m - 1))
      ∧ (∀ i, i < m → findQueryEnd ref query m ≤ i → ¬ bothPresent ref query i) := by
  induction m with
  | zero => simp [findQueryEnd]
  | succ m ih =>
    simp only [findQueryEnd]
    split_ifs with h1 h2
    · refine ⟨fun _ => ?_, fun i hi hle => by omega⟩
      simpa [bothPresent] using And.intro h1 h2
    · refine ⟨ih.1, fun i hi hle => ?_⟩
      by_cases him : i = m
      · subst him
        simp only [bothPresent]
        tauto
      · exact ih.2 i (by omega) hle
    · refine ⟨ih.1, fun i hi hle => ?_⟩
      by_cases him : i = m
      · subst him
        simp only [bothPresent]
        tauto
      · exact ih.2 i (by omega) hle

/-- Every pair has a query end, the one the first loop finds. -/
theorem isQueryEnd_findQueryEnd (ref query : List χ) :
    IsQueryEnd ref query (findQueryEnd ref query query.length) :=
  ⟨findQueryEnd_le ref query query.length, (findQueryEnd_spec ref query query.length).1,
    (findQueryEnd_spec ref query query.length).2⟩

theorem calcStats_of_queryEnd_zero (sc : SimpleScorer) (ref query : List χ) (n : Int)
    (h : IsQueryEnd ref query 0) : sc.calcStats ref query n = AlignmentStats.default := by
  simp [SimpleScorer.calcStats, findQueryEnd_eq ref query 0 h]

theorem calcStats_of_queryEnd (sc : SimpleScorer) (ref query : List χ) (n : Int) (qe : Nat)
    (h : IsQueryEnd ref query qe) (hpos : qe ≠ 0) :
    sc.calcStats ref query n =
      { (walk sc ref query qe).result with
        refLength := (walk sc ref query qe).refPos + ((ref.length : Int) - (qe : Int)),
        coverage := (walk sc ref query qe).result.matchCount
          + (walk sc ref query qe).result.deleteCount,
        score := (walk sc ref query qe).result.score + n * sc.frameShiftCost_,
        frameShifts := n } := by
  simp [SimpleScorer.calcStats, findQueryEnd_eq ref query qe h, hpos]

end QueryEnd

section GapCounts

variable {χ : Type} [Character χ] [DecidableEq χ]

theorem seqAt_mem (s : List χ) (i : Nat) (h : i < s.length) : seqAt s i ∈ s := by
  unfold seqAt
  rw [List.getD_eq_getElem s _ h]
  exact List.getElem_mem h

theorem seqAt_take (s : List χ) (m i : Nat) (h : i < m) :
    seqAt (s.take m) i = seqAt s i := by
  unfold seqAt
  simp [List.getD_eq_getElem?_getD, List.getElem?_take, h]

theorem lastPlain_succ_of_plain (s : List χ) (i : Nat)
    (h : Character.isMisaligned (seqAt s i) = false) :
    lastPlain s (i + 1) = some (seqAt s i) := by
  simp [lastPlain, h]

/-- In a sequence without misalignment symbols, a GAP at column `i` opens a
run exactly when `i = 0` or the symbol before it is not GAP. -/
theorem opens_iff_of_plain (s : List χ) (hs : ∀ c ∈ s, Character.isMisaligned c = false)
    (i : Nat) (hi : i < s.length) :
    (seqAt s i = Character.GAP ∧ lastPlain s i ≠ some Character.GAP)
      ↔ (seqAt s i = Character.GAP ∧ (i = 0 ∨ seqAt s (i - 1) ≠ Character.GAP)) := by
  cases i with
  | zero => simp [lastPlain]
  | succ j =>
    rw [lastPlain_succ_of_plain s j (hs _ (seqAt_mem s j (by omega)))]
    simp

/-- C6 (amended): with `qe` the index one past the last column where both
sides are not MISSING, `insertCount` is the number of columns `i < qe` with
`ref[i] = GAP`, and `insertEvents` is the number of those columns where
reading `ref` back from column `i - 1` and stepping over misalignment
symbols (X) finds no symbol or a symbol other than GAP; `deleteCount` and
`deleteEvents` are the same counts on the query.  For a side without
misalignment symbols (every nucleotide sequence) the event columns are the
GAP columns with `i = 0` or a non-GAP symbol at `i - 1`. -/
theorem calcStats_gap_counts (sc : SimpleScorer) (ref query : List χ) (n : Int) (qe : Nat)
    (hlen : ref.length = query.length) (hqe : IsQueryEnd ref query qe) :
    (sc.calcStats ref query n).insertCount
        = ((List.range qe).countP (fun i => decide (seqAt ref i = Character.GAP)) : Nat)
      ∧ (sc.calcStats ref query n).insertEvents
        = ((List.range qe).countP (fun i => decide (seqAt ref i = Character.GAP
            ∧ lastPlain ref i ≠ some Character.GAP)) : Nat)
      ∧ (sc.calcStats ref query n).deleteCount
        = ((List.range qe).countP (fun i => decide (seqAt query i = Character.GAP)) : Nat)
      ∧ (sc.calcStats ref query n).deleteEvents
        = ((List.range qe).countP (fun i => decide (seqAt query i = Character.GAP
            ∧ lastPlain query i ≠ some Character.GAP)) : Nat)
      ∧ ((∀ c ∈ ref, Character.isMisaligned c = false) →
          (sc.calcStats ref query n).insertEvents
            = ((List.range qe).countP (fun i => decide (seqAt ref i = Character.GAP
                ∧ (i = 0 ∨ seqAt ref (i - 1) ≠ Character.GAP))) : Nat))
      ∧ ((∀ c ∈ query, Character.isMisaligned c = false) →
          (sc.calcStats ref query n).deleteEvents
            = ((List.range qe).countP (fun i => decide (seqAt query i = Character.GAP
                ∧ (i = 0 ∨ seqAt query (i - 1) ≠ Character.GAP))) : Nat)) := by
  have hle := hqe.1
  by_cases h0 : qe = 0
  · subst h0
    rw [calcStats_of_queryEnd_zero sc ref query n hqe]
    simp [AlignmentStats.default]
  · rw [calcStats_of_queryEnd sc ref query n qe hqe h0]
    simp only
    refine ⟨walk_insertCount sc ref query qe, walk_insertEvents sc ref query qe,
      walk_deleteCount sc ref query qe, walk_deleteEvents sc ref query qe, ?_, ?_⟩
    · intro hs
      rw [walk_insertEvents sc ref query qe]
      congr 1
      apply List.countP_congr
      intro i hi
      have hi2 : i < ref.length := by
        have := List.mem_range.mp hi
        omega
      simpa using opens_iff_of_plain ref hs i hi2
    · intro hs
      rw [walk_deleteEvents sc ref query qe]
      congr 1
      apply List.countP_congr
      intro i hi
      have hi2 : i < query.length := by
        have := List.mem_range.mp hi
        omega
      simpa using opens_iff_of_plain query hs i hi2

/-- C6 fails as stated on amino acids: with reference `GAP X GAP` against
query `A A A` the query end is 3 and two reference GAP columns (0 and 2)
have no GAP right before them, but `insertEvents` is 1: the X between the
two GAPs does not close the run. -/
theorem gap_events_counterexample :
    IsQueryEnd [AminoAcid.GAP, .X, .GAP] [AminoAcid.A, .A, .A] 3
      ∧ ((SimpleScorer.mk (-6) (-2) (-100) (-20) (fun _ _ => 0)).calcStats
          [AminoAcid.GAP, .X, .GAP] [AminoAcid.A, .A, .A] 0).insertEvents = 1
      ∧ (List.range 3).countP (fun i =>
          decide (seqAt [AminoAcid.GAP, .X, .GAP] i = AminoAcid.GAP
            ∧ (i = 0 ∨ seqAt [AminoAcid.GAP, .X, .GAP] (i - 1) ≠ AminoAcid.GAP))) = 2 := by
  decide

/-- C6 (amended) at a concrete amino-acid pair. -/
theorem calcStats_gap_counts_witness :
    ((SimpleScorer.mk (-6) (-2) (-100) (-20) (fun _ _ => 0)).calcStats
        [AminoAcid.GAP, .X, .GAP, .A] [AminoAcid.A, .A, .A, .GAP] 0).insertCount = 2
      ∧ ((SimpleScorer.mk (-6) (-2) (-100) (-20) (fun _ _ => 0)).calcStats
        [AminoAcid.GAP, .X, .GAP, .A] [AminoAcid.A, .A, .A, .GAP] 0).insertEvents = 1
      ∧ ((SimpleScorer.mk (-6) (-2) (-100) (-20) (fun _ _ => 0)).calcStats
        [AminoAcid.GAP, .X, .GAP, .A] [AminoAcid.A, .A, .A, .GAP] 0).deleteCount = 1
      ∧ ((SimpleScorer.mk (-6) (-2) (-100) (-20) (fun _ _ => 0)).calcStats
        [AminoAcid.GAP, .X, .GAP, .A] [AminoAcid.A, .A, .A, .GAP] 0).deleteEvents = 1 := by
  have h := calcStats_gap_counts (SimpleScorer.mk (-6) (-2) (-100) (-20) (fun _ _ => 0))
    [AminoAcid.GAP, .X, .GAP, .A] [AminoAcid.A, .A, .A, .GAP] 0 4 (by decide) (by decide)
  refine ⟨?_, ?_, ?_, ?_⟩
  · rw [h.1]; decide
  · rw [h.2.1]; decide
  · rw [h.2.2.1]; decide
  · rw [h.2.2.2.1]; decide

end GapCounts

section RefLength

variable {χ : Type} [Character χ] [DecidableEq χ]

/-- In a sequence without misalignment symbols a column is resolved exactly
when its symbol is neither GAP nor MISSING. -/
theorem resolvedAt_iff_of_plain (s : List χ)
    (hs : ∀ c ∈ s, Character.isMisaligned c = false) (i : Nat) (hi : i < s.length) :
    resolvedAt s i
      ↔ (seqAt s i ≠ Character.GAP ∧ seqAt s i ≠ Character.MISSING) := by
  unfold resolvedAt
  rw [lastPlain_succ_of_plain s i (hs _ (seqAt_mem s i hi))]
  simp

/-- C7 (amended): with `qe` the index one past the last column where both
sides are not MISSING: when there is no such column (`qe = 0`) `refLength`
is 0; otherwise `refLength` is the number of resolved columns `i < qe` plus
`|ref| - qe`, a column being resolved when reading `ref` back from it and
stepping over misalignment symbols (X) ends on a symbol that is neither GAP
nor MISSING.  For a reference without misalignment symbols (every nucleotide
sequence) the resolved columns are those with `ref[i]` neither GAP nor
MISSING. -/
theorem calcStats_refLength (sc : SimpleScorer) (ref query : List χ) (n : Int) (qe : Nat)
    (hlen : ref.length = query.length) (hqe : IsQueryEnd ref query qe) :
    (qe = 0 → (sc.calcStats ref query n).refLength = 0)
      ∧ (qe ≠ 0 → (sc.calcStats ref query n).refLength
          = ((List.range qe).countP (fun i => decide (resolvedAt ref i)) : Nat)
            + ((ref.length : Int) - (qe : Int)))
      ∧ (qe ≠ 0 → (∀ c ∈ ref, Character.isMisaligned c = false) →
          (sc.calcStats ref query n).refLength
          = ((List.range qe).countP (fun i => decide (seqAt ref i ≠ Character.GAP
              ∧ seqAt ref i ≠ Character.MISSING)) : Nat)
            + ((ref.length : Int) - (qe : Int))) := by
  have hle := hqe.1
  refine ⟨?_, ?_, ?_⟩
  · intro h0
    subst h0
    rw [calcStats_of_queryEnd_zero sc ref query n hqe]
    rfl
  · intro h0
    rw [calcStats_of_queryEnd sc ref query n qe hqe h0]
    simp only
    rw [walk_refPos]
  · intro h0 hs
    rw [calcStats_of_queryEnd sc ref query n qe hqe h0]
    simp only
    rw [walk_refPos]
    congr 2
    apply List.countP_congr
    intro i hi
    have hi2 : i < ref.length := by
      have := List.mem_range.mp hi
      omega
    simpa using resolvedAt_iff_of_plain ref hs i hi2

/-- C7 fails as stated when no column has both sides present: reference `A`
against query `MISSING` has query end 0, so the claimed value is
`0 + (1 - 0) = 1`, but `calcStats` returns at `if (queryEnd == 0)` with
`refLength = 0`. -/
theorem refLength_counterexample :
    IsQueryEnd [Nucleotide.A] [Nucleotide.MISSING] 0
      ∧ ((SimpleScorer.mk (-10) (-1) 0 0 (ntScoreMatrix 2 (-2))).calcStats
          [Nucleotide.A] [Nucleotide.MISSING] 0).refLength = 0
      ∧ (((List.range 0).countP (fun i =>
            decide (seqAt [Nucleotide.A] i ≠ Nucleotide.GAP
              ∧ seqAt [Nucleotide.A] i ≠ Nucleotide.MISSING)) : Nat) : Int)
          + ((([Nucleotide.A] : NTSequence).length : Int) - ((0 : Nat) : Int)) = 1 := by
  decide

/-- C7 (amended) at a concrete pair: reference `A - C G T` against query
`A C C ? ?` (`?` for MISSING) has query end 3 and reference length
2 + (5 - 3) = 4. -/
theorem calcStats_refLength_witness :
    ((SimpleScorer.mk (-10) (-1) 0 0 (ntScoreMatrix 2 (-2))).calcStats
        [Nucleotide.A, .GAP, .C, .G, .T] [Nucleotide.A, .C, .C, .MISSING, .MISSING] 0).refLength
      = 4 := by
  have h := (calcStats_refLength (SimpleScorer.mk (-10) (-1) 0 0 (ntScoreMatrix 2 (-2)))
    [Nucleotide.A, .GAP, .C, .G, .T] [Nucleotide.A, .C, .C, .MISSING, .MISSING] 0 3
    (by decide) (by decide)).2.1 (by decide)
  rw [h]
  decide

end RefLength

section Misaligned

variable {χ : Type} [Character χ] [DecidableEq χ]

theorem refSide_queryMissing (sc : SimpleScorer) (ref : List χ) (i : Nat) (w : Walk) :
    (refSide sc ref i w).queryMissing = w.queryMissing := by
  simp only [refSide]
  simp only [apply_ite Walk.queryMissing, ite_self]

/-- A misalignment symbol on the reference that follows a MISSING run, or
has MISSING right after it, leaves the state as it is. -/
theorem refSide_eq_self (sc : SimpleScorer) (ref : List χ) (i : Nat) (w : Walk)
    (hg : seqAt ref i ≠ Character.GAP) (hm : seqAt ref i ≠ Character.MISSING)
    (hx : Character.isMisaligned (seqAt ref i) = true)
    (h : w.refMissing = true ∨ seqAt ref (i + 1) = Character.MISSING) :
    refSide sc ref i w = w := by
  simp only [refSide, hg, hm, hx, if_false, if_true]
  rcases h with h | h <;> simp [h]

/-- A misalignment symbol on the query that follows a MISSING run, or has
MISSING right after it, leaves the state as it is. -/
theorem querySide_eq_self (sc : SimpleScorer) (query : List χ) (i : Nat) (w : Walk)
    (hg : seqAt query i ≠ Character.GAP) (hm : seqAt query i ≠ Character.MISSING)
    (hx : Character.isMisaligned (seqAt query i) = true)
    (h : w.queryMissing = true ∨ seqAt query (i + 1) = Character.MISSING) :
    querySide sc query i w = w := by
  simp only [querySide, hg, hm, hx, if_false, if_true]
  rcases h with h | h <;> simp [h]

theorem lastPlain_succ_of_missing (s : List χ) (j : Nat)
    (h : seqAt s j = Character.MISSING) :
    lastPlain s (j + 1) = some Character.MISSING := by
  simp [lastPlain, h]

theorem walk_misaligned_of_plain (sc : SimpleScorer) (ref query : List χ)
    (h : ∀ c : χ, Character.isMisaligned c = false) (n : Nat) :
    (walk sc ref query n).result.misaligned = 0 := by
  induction n with
  | zero => simp [walk_zero, Walk.init, AlignmentStats.default]
  | succ n ih => rw [walk_succ, body_misaligned_of_plain sc ref query n _ (h _) (h _), ih]

theorem calcStats_misaligned_of_plain (sc : SimpleScorer) (ref query : List χ)
    (h : ∀ c : χ, Character.isMisaligned c = false) (n : Int) :
    (sc.calcStats ref query n).misaligned = 0 := by
  simp only [SimpleScorer.calcStats]
  split_ifs
  · rfl
  · exact walk_misaligned_of_plain sc ref query h _

end Misaligned

/-- C10: in an equal-length amino-acid pair with query end `qe`, take the
loop at a column `i < qe`, in the state it has reached there with the local
`score` reset.  If `ref[i]` is X and `ref[i-1]` or `ref[i+1]` is MISSING, the
reference chain leaves `misaligned` and `score` as they are; if `query[i]` is
X and `query[i-1]` or `query[i+1]` is MISSING, the query chain, run after the
reference chain, does too.  With the nucleotide scorer `misaligned` is 0 for
every input. -/
theorem misaligned_away_from_missing (sc : SimpleScorer) (ref query : AASequence)
    (i qe : Nat) (hlen : ref.length = query.length) (hqe : IsQueryEnd ref query qe)
    (hi : i < qe) :
    (seqAt ref i = AminoAcid.X →
        ((1 ≤ i ∧ seqAt ref (i - 1) = AminoAcid.MISSING)
          ∨ (i + 1 < ref.length ∧ seqAt ref (i + 1) = AminoAcid.MISSING)) →
        (refSide sc ref i { walk sc ref query i with score := 0 }).result.misaligned
            = (walk sc ref query i).result.misaligned
          ∧ (refSide sc ref i { walk sc ref query i with score := 0 }).score = 0)
      ∧ (seqAt query i = AminoAcid.X →
        ((1 ≤ i ∧ seqAt query (i - 1) = AminoAcid.MISSING)
          ∨ (i + 1 < query.length ∧ seqAt query (i + 1) = AminoAcid.MISSING)) →
        (querySide sc query i
            (refSide sc ref i { walk sc ref query i with score := 0 })).result.misaligned
            = (refSide sc ref i { walk sc ref query i with score := 0 }).result.misaligned
          ∧ (querySide sc query i
            (refSide sc ref i { walk sc ref query i with score := 0 })).score
            = (refSide sc ref i { walk sc ref query i with score := 0 }).score)
      ∧ (∀ (r q : NTSequence) (m : Int), (sc.calcStats r q m).misaligned = 0) := by
  refine ⟨?_, ?_, ?_⟩
  · intro hx hnb
    have hside : refSide sc ref i { walk sc ref query i with score := 0 }
        = { walk sc ref query i with score := 0 } := by
      apply refSide_eq_self
      · rw [hx]; decide
      · rw [hx]; decide
      · rw [hx]; rfl
      · rcases hnb with ⟨h1, h2⟩ | ⟨_, h2⟩
        · left
          obtain ⟨j, rfl⟩ : ∃ j, i = j + 1 := ⟨i - 1, by omega⟩
          simp only [Nat.add_sub_cancel] at h2
          show (walk sc ref query (j + 1)).refMissing = true
          rw [(walk_refFlags sc ref query (j + 1)).2,
            lastPlain_succ_of_missing ref j h2]
          simp
        · right
          exact h2
    rw [hside]
    exact ⟨rfl, rfl⟩
  · intro hx hnb
    have hside : querySide sc query i
          (refSide sc ref i { walk sc ref query i with score := 0 })
        = refSide sc ref i { walk sc ref query i with score := 0 } := by
      apply querySide_eq_self
      · rw [hx]; decide
      · rw [hx]; decide
      · rw [hx]; rfl
      · rcases hnb with ⟨h1, h2⟩ | ⟨_, h2⟩
        · left
          obtain ⟨j, rfl⟩ : ∃ j, i = j + 1 := ⟨i - 1, by omega⟩
          simp only [Nat.add_sub_cancel] at h2
          rw [refSide_queryMissing]
          show (walk sc ref query (j + 1)).queryMissing = true
          rw [(walk_queryFlags sc ref query (j + 1)).2,
            lastPlain_succ_of_missing query j h2]
          simp
        · right
          exact h2
    rw [hside]
    exact ⟨rfl, rfl⟩
  · intro r q m
    exact calcStats_misaligned_of_plain sc r q (fun _ => rfl) m

section EdgeTrim

variable {χ : Type} [Character χ] [DecidableEq χ]

/-- The test `i == query.size() - 1 || query[i + 1] == MISSING` has the same
outcome on a query and on its first `k` symbols, when everything from `k` on
is MISSING. -/
theorem edge_test_take (query : List χ) (k i : Nat) (hk : k ≤ query.length)
    (hmiss : ∀ j, k ≤ j → j < query.length → seqAt query j = Character.MISSING)
    (hi : i < k) :
    (decide ((i : Int) = ((query.take k).length : Int) - 1)
        || decide (seqAt (query.take k) (i + 1) = Character.MISSING))
      = (decide ((i : Int) = (query.length : Int) - 1)
        || decide (seqAt query (i + 1) = Character.MISSING)) := by
  have hl : (query.take k).length = k := by simp [hk]
  rw [hl]
  by_cases h1 : i + 1 < k
  · rw [seqAt_take query k (i + 1) h1]
    have e1 : ¬ ((i : Int) = (k : Int) - 1) := by omega
    have e2 : ¬ ((i : Int) = (query.length : Int) - 1) := by omega
    rw [decide_eq_false e1, decide_eq_false e2]
  · have hik : i + 1 = k := by omega
    have e1 : (i : Int) = (k : Int) - 1 := by omega
    by_cases h2 : k = query.length
    · have e2 : (i : Int) = (query.length : Int) - 1 := by omega
      rw [decide_eq_true e1, decide_eq_true e2, Bool.true_or, Bool.true_or]
    · have e3 : seqAt query (i + 1) = Character.MISSING :=
        hmiss (i + 1) (by omega) (by omega)
      rw [decide_eq_true e1, decide_eq_true e3, Bool.true_or, Bool.or_true]

theorem querySide_take (sc : SimpleScorer) (query : List χ) (k i : Nat) (w : Walk)
    (hk : k ≤ query.length)
    (hmiss : ∀ j, k ≤ j → j < query.length → seqAt query j = Character.MISSING)
    (hi : i < k) :
    querySide sc (query.take k) i w = querySide sc query i w := by
  have ht := edge_test_take query k i hk hmiss hi
  simp only [querySide, seqAt_take query k i hi, Bool.or_assoc, ht]

theorem body_take (sc : SimpleScorer) (ref query : List χ) (k i : Nat) (w : Walk)
    (hk : k ≤ query.length)
    (hmiss : ∀ j, k ≤ j → j < query.length → seqAt query j = Character.MISSING)
    (hi : i < k) :
    body sc ref (query.take k) i w = body sc ref query i w := by
  simp only [body, querySide_take sc query k i _ hk hmiss hi, countQuerySymbol,
    matchColumn, seqAt_take query k i hi]

theorem walk_take (sc : SimpleScorer) (ref query : List χ) (k : Nat)
    (hk : k ≤ query.length)
    (hmiss : ∀ j, k ≤ j → j < query.length → seqAt query j = Character.MISSING)
    (m : Nat) (hm : m ≤ k) :
    walk sc ref (query.take k) m = walk sc ref query m := by
  induction m with
  | zero => simp [walk_zero]
  | succ m ih =>
    rw [walk_succ, walk_succ, ih (by omega), body_take sc ref query k m _ hk hmiss (by omega)]

theorem isQueryEnd_take (ref query : List χ) (k qe : Nat) (hk : k ≤ query.length)
    (hmiss : ∀ j, k ≤ j → j < query.length → seqAt query j = Character.MISSING)
    (h : IsQueryEnd ref query qe) : qe ≤ k ∧ IsQueryEnd ref (query.take k) qe := by
  have hqk : qe ≤ k := by
    by_contra hc
    have hb := h.2.1 (by omega)
    exact hb.2 (hmiss (qe - 1) (by omega) (by have := h.1; omega))
  have hl : (query.take k).length = k := by simp [hk]
  refine ⟨hqk, ?_, ?_, ?_⟩
  · rw [hl]; exact hqk
  · intro h0
    have hb := h.2.1 h0
    unfold bothPresent at hb ⊢
    rw [seqAt_take query k (qe - 1) (by omega)]
    exact hb
  · intro i hi hle
    rw [hl] at hi
    have hnb := h.2.2 i (by omega) hle
    unfold bothPresent at hnb ⊢
    rw [seqAt_take query k i hi]
    exact hnb

/-- C2: when every symbol of the query from position `k` on is MISSING,
`calcStats` returns the same `AlignmentStats`, field by field, for the query
and for its first `k` symbols, against the same reference and with the same
`frameshiftCount`.  (The source reads `ref[i]` for `i < |query|`; the
statement includes the pairs where that read is inside `ref`.) -/
theorem calcStats_trim_trailing_missing (sc : SimpleScorer) (ref query : List χ)
    (k : Nat) (n : Int) (hk : k ≤ query.length)
    (hmiss : ∀ i, k ≤ i → i < query.length → seqAt query i = Character.MISSING) :
    sc.calcStats ref query n = sc.calcStats ref (query.take k) n := by
  have hqe := isQueryEnd_findQueryEnd ref query
  obtain ⟨hqk, hqe2⟩ := isQueryEnd_take ref query k _ hk hmiss hqe
  have e := findQueryEnd_eq ref (query.take k) _ hqe2
  simp only [SimpleScorer.calcStats, e, walk_take sc ref query k hk hmiss _ hqk]

/-- C2 at a concrete pair: reference ACGTAC against query `A C - T ? ?`
(`?` for MISSING) and against its first four symbols. -/
theorem calcStats_trim_trailing_missing_witness :
    (SimpleScorer.mk (-10) (-1) 0 0 (ntScoreMatrix 2 (-2))).calcStats
        [Nucleotide.A, .C, .G, .T, .A, .C]
        [Nucleotide.A, .C, .GAP, .T, .MISSING, .MISSING] 0
      = (SimpleScorer.mk (-10) (-1) 0 0 (ntScoreMatrix 2 (-2))).calcStats
        [Nucleotide.A, .C, .G, .T, .A, .C] [Nucleotide.A, .C, .GAP, .T] 0 :=
  calcStats_trim_trailing_missing (SimpleScorer.mk (-10) (-1) 0 0 (ntScoreMatrix 2 (-2)))
    [Nucleotide.A, .C, .G, .T, .A, .C]
    [Nucleotide.A, .C, .GAP, .T, .MISSING, .MISSING] 4 0 (by decide) (by decide)

end EdgeTrim

/-- C10 at a concrete pair: reference `? X A` against query `A X ?` (`?` for
MISSING) has query end 2; at column 1 both sides hold an X next to a MISSING
and neither chain counts or charges it. -/
theorem misaligned_away_from_missing_witness :
    (refSide (SimpleScorer.mk (-6) (-2) (-100) (-20) (fun _ _ => 0))
        [AminoAcid.MISSING, .X, .A] 1
        { walk (SimpleScorer.mk (-6) (-2) (-100) (-20) (fun _ _ => 0))
            [AminoAcid.MISSING, .X, .A] [AminoAcid.A, .X, .MISSING] 1
          with score := 0 }).score = 0
      ∧ (querySide (SimpleScorer.mk (-6) (-2) (-100) (-20) (fun _ _ => 0))
          [AminoAcid.A, .X, .MISSING] 1
          (refSide (SimpleScorer.mk (-6) (-2) (-100) (-20) (fun _ _ => 0))
            [AminoAcid.MISSING, .X, .A] 1
            { walk (SimpleScorer.mk (-6) (-2) (-100) (-20) (fun _ _ => 0))
                [AminoAcid.MISSING, .X, .A] [AminoAcid.A, .X, .MISSING] 1
              with score := 0 })).score
        = (refSide (SimpleScorer.mk (-6) (-2) (-100) (-20) (fun _ _ => 0))
            [AminoAcid.MISSING, .X, .A] 1
            { walk (SimpleScorer.mk (-6) (-2) (-100) (-20) (fun _ _ => 0))
                [AminoAcid.MISSING, .X, .A] [AminoAcid.A, .X, .MISSING] 1
              with score := 0 }).score
      ∧ ((SimpleScorer.mk (-6) (-2) (-100) (-20) (fun _ _ => 0)).calcStats
          [AminoAcid.MISSING, .X, .A] [AminoAcid.A, .X, .MISSING] 0).misaligned = 0 := by
  have h := misaligned_away_from_missing
    (SimpleScorer.mk (-6) (-2) (-100) (-20) (fun _ _ => 0))
    [AminoAcid.MISSING, .X, .A] [AminoAcid.A, .X, .MISSING] 1 2
    (by decide) (by decide) (by decide)
  exact ⟨(h.1 (by decide) (by decide)).2, (h.2.1 (by decide) (by decide)).2, by decide⟩

section Score

variable {χ : Type} [Character χ] [DecidableEq χ]

theorem list_sum_range_succ (f : Nat → Int) (n : Nat) :
    ((List.range (n + 1)).map f).sum = ((List.range n).map f).sum + f n := by
  simp [List.range_succ]

/-- In a side without misalignment symbols the gap flag on entry to column
`i` says whether `i ≠ 0` and the symbol at `i - 1` is GAP. -/
theorem lastPlain_gap_iff_of_plain (s : List χ)
    (hs : ∀ c ∈ s, Character.isMisaligned c = false) (i : Nat) (hi : i ≤ s.length) :
    lastPlain s i = some Character.GAP ↔ (i ≠ 0 ∧ seqAt s (i - 1) = Character.GAP) := by
  cases i with
  | zero => simp [lastPlain]
  | succ j =>
    rw [lastPlain_succ_of_plain s j (hs _ (seqAt_mem s j (by omega)))]
    simp

/-- The score after `m` columns of a pair without misalignment symbols: per
column, the gap charge of each side and the match weight. -/
theorem walk_score_of_plain (sc : SimpleScorer) (ref query : List χ)
    (hr : ∀ c ∈ ref, Character.isMisaligned c = false)
    (hq : ∀ c ∈ query, Character.isMisaligned c = false)
    (m : Nat) (hmr : m ≤ ref.length) (hmq : m ≤ query.length) :
    (walk sc ref query m).result.score
      = ((List.range m).map (fun i =>
          gapCharge sc ref i + gapCharge sc query i + matchWeight sc ref query i)).sum := by
  induction m with
  | zero => simp [walk_zero, Walk.init, AlignmentStats.default]
  | succ m ih =>
    rw [walk_succ, body_score_of_plain sc ref query m _
      (hr _ (seqAt_mem ref m (by omega))) (hq _ (seqAt_mem query m (by omega))),
      ih (by omega) (by omega), list_sum_range_succ,
      (walk_refFlags sc ref query m).1, (walk_queryFlags sc ref query m).1]
    simp only [gapCharge, decide_eq_true_eq,
      lastPlain_gap_iff_of_plain ref hr m (by omega),
      lastPlain_gap_iff_of_plain query hq m (by omega)]
    ring

end Score

section SelfAlignment

variable {χ : Type} [Character χ] [DecidableEq χ]

/-- One iteration on a column where both sides hold a symbol that is not
GAP, not MISSING and not a misalignment symbol: a match column. -/
theorem body_of_match (sc : SimpleScorer) (ref query : List χ) (i : Nat) (w : Walk)
    (hrg : seqAt ref i ≠ Character.GAP) (hrm : seqAt ref i ≠ Character.MISSING)
    (hrx : Character.isMisaligned (seqAt ref i) = false)
    (hqg : seqAt query i ≠ Character.GAP) (hqm : seqAt query i ≠ Character.MISSING)
    (hqx : Character.isMisaligned (seqAt query i) = false) :
    (body sc ref query i w).result.matchCount = w.result.matchCount + 1
      ∧ (body sc ref query i w).result.identityCount
          = w.result.identityCount + (if seqAt ref i = seqAt query i then 1 else 0)
      ∧ (body sc ref query i w).result.begin
          = (if w.result.begin = -1 then w.refPos else w.result.begin)
      ∧ (body sc ref query i w).result.end_ = w.refPos + 1
      ∧ (body sc ref query i w).refPos = w.refPos + 1 := by
  cases ha : Character.isAmbiguity (seqAt query i) <;>
  cases hs : Character.isStopCodon (seqAt query i) <;>
  by_cases hb : w.result.begin = -1 <;>
  by_cases he : seqAt ref i = seqAt query i <;>
  simp [body, refSide, querySide, countQuerySymbol, matchColumn, closeColumn,
    hrg, hrm, hrx, hqg, hqm, hqx, ha, hs, hb, he]

theorem walk_self (sc : SimpleScorer) (s : List χ)
    (hs : ∀ c ∈ s, c ≠ Character.GAP ∧ c ≠ Character.MISSING
      ∧ Character.isAmbiguity c = false ∧ Character.isMisaligned c = false)
    (m : Nat) (hm : m ≤ s.length) :
    (walk sc s s m).refPos = (m : Int)
      ∧ (walk sc s s m).result.matchCount = (m : Int)
      ∧ (walk sc s s m).result.identityCount = (m : Int)
      ∧ (walk sc s s m).result.begin = (if m = 0 then -1 else 0)
      ∧ (walk sc s s m).result.end_ = (if m = 0 then -1 else (m : Int)) := by
  induction m with
  | zero => simp [walk_zero, Walk.init, AlignmentStats.default]
  | succ m ih =>
    obtain ⟨i1, i2, i3, i4, i5⟩ := ih (by omega)
    obtain ⟨c1, c2, c3, c4⟩ := hs _ (seqAt_mem s m (by omega))
    obtain ⟨b1, b2, b3, b4, b5⟩ :=
      body_of_match sc s s m (walk sc s s m) c1 c2 c4 c1 c2 c4
    rw [walk_succ, b1, b2, b3, b4, b5, i1, i2, i3, i4]
    refine ⟨by push_cast; ring, by push_cast; ring, by push_cast; simp, ?_, by simp⟩
    by_cases h0 : m = 0
    · simp [h0]
    · simp [h0]

theorem map_seqAt_range (s : List χ) (f : χ → Int) :
    (List.range s.length).map (fun i => f (seqAt s i)) = s.map f := by
  apply List.ext_getElem
  · simp
  · intro i h1 h2
    have hi : i < s.length := by simpa using h2
    simp [seqAt, List.getElem?_eq_getElem hi]

theorem sum_map_range_congr (f g : Nat → Int) (n : Nat) (h : ∀ i, i < n → f i = g i) :
    ((List.range n).map f).sum = ((List.range n).map g).sum := by
  congr 1
  apply List.map_congr_left
  intro i hi
  exact h i (List.mem_range.mp hi)

/-- C3: for a sequence `s` of length `n ≥ 1` without GAP, MISSING, ambiguity
or misalignment (X) symbols, `calcStats(s, s, 0)` has the sum of the weights
`weightMatrix[s_i][s_i]` as score, no insert or delete events or counts,
`matchCount = identityCount = coverage = refLength = n`, `begin = 0` and
`end = n`. -/
theorem calcStats_self_alignment (sc : SimpleScorer) (s : List χ) (hn : 1 ≤ s.length)
    (hs : ∀ c ∈ s, c ≠ Character.GAP ∧ c ≠ Character.MISSING
      ∧ Character.isAmbiguity c = false ∧ Character.isMisaligned c = false) :
    (sc.calcStats s s 0).score
        = (s.map (fun c => sc.weightMatrix_ (Character.intRep c) (Character.intRep c))).sum
      ∧ (sc.calcStats s s 0).insertEvents = 0
      ∧ (sc.calcStats s s 0).deleteEvents = 0
      ∧ (sc.calcStats s s 0).insertCount = 0
      ∧ (sc.calcStats s s 0).deleteCount = 0
      ∧ (sc.calcStats s s 0).matchCount = (s.length : Int)
      ∧ (sc.calcStats s s 0).identityCount = (s.length : Int)
      ∧ (sc.calcStats s s 0).coverage = (s.length : Int)
      ∧ (sc.calcStats s s 0).refLength = (s.length : Int)
      ∧ (sc.calcStats s s 0).begin = 0
      ∧ (sc.calcStats s s 0).end_ = (s.length : Int) := by
  have hlast := hs _ (seqAt_mem s (s.length - 1) (by omega))
  have hqe : IsQueryEnd s s s.length :=
    ⟨le_refl _, fun _ => ⟨hlast.2.1, hlast.2.1⟩, fun i hi hle => by omega⟩
  have hne : s.length ≠ 0 := by omega
  have hplain : ∀ c ∈ s, Character.isMisaligned c = false := fun c hc => (hs c hc).2.2.2
  have hnogap : ∀ i, i < s.length → seqAt s i ≠ Character.GAP :=
    fun i hi => (hs _ (seqAt_mem s i hi)).1
  obtain ⟨w1, w2, w3, w4, w5⟩ := walk_self sc s hs s.length (le_refl _)
  have hcount : (List.range s.length).countP
      (fun i => decide (seqAt s i = Character.GAP)) = 0 := by
    rw [List.countP_eq_zero]
    intro i hi
    simpa using hnogap i (List.mem_range.mp hi)
  have hevents : (List.range s.length).countP
      (fun i => decide (seqAt s i = Character.GAP
        ∧ lastPlain s i ≠ some Character.GAP)) = 0 := by
    rw [List.countP_eq_zero]
    intro i hi
    have := hnogap i (List.mem_range.mp hi)
    simp [this]
  have hscore : (walk sc s s s.length).result.score
      = (s.map (fun c => sc.weightMatrix_ (Character.intRep c) (Character.intRep c))).sum := by
    rw [walk_score_of_plain sc s s hplain hplain s.length (le_refl _) (le_refl _),
      ← map_seqAt_range s
        (fun c => sc.weightMatrix_ (Character.intRep c) (Character.intRep c))]
    apply sum_map_range_congr
    intro i hi
    obtain ⟨c1, c2, c3, c4⟩ := hs _ (seqAt_mem s i hi)
    simp [gapCharge, matchWeight, c1, c2, c3]
  rw [calcStats_of_queryEnd sc s s 0 s.length hqe hne]
  simp only
  rw [walk_insertEvents, walk_deleteEvents, walk_insertCount, walk_deleteCount,
    hcount, hevents, w1, w2, w3, w4, w5, hscore]
  simp [hne]

/-- C3 at the input of the claim: with `ntScoreMatrix(2, -2)`, gap costs -10
and -1, and `s = ACGTACGT`, the score is 16 and the counters are 8. -/
theorem calcStats_self_alignment_witness :
    ((SimpleScorer.mk (-10) (-1) 0 0 (ntScoreMatrix 2 (-2))).calcStats
        [Nucleotide.A, .C, .G, .T, .A, .C, .G, .T]
        [Nucleotide.A, .C, .G, .T, .A, .C, .G, .T] 0).score = 16
      ∧ ((SimpleScorer.mk (-10) (-1) 0 0 (ntScoreMatrix 2 (-2))).calcStats
        [Nucleotide.A, .C, .G, .T, .A, .C, .G, .T]
        [Nucleotide.A, .C, .G, .T, .A, .C, .G, .T] 0).matchCount = 8
      ∧ ((SimpleScorer.mk (-10) (-1) 0 0 (ntScoreMatrix 2 (-2))).calcStats
        [Nucleotide.A, .C, .G, .T, .A, .C, .G, .T]
        [Nucleotide.A, .C, .G, .T, .A, .C, .G, .T] 0).refLength = 8 := by
  have h := calcStats_self_alignment (SimpleScorer.mk (-10) (-1) 0 0 (ntScoreMatrix 2 (-2)))
    [Nucleotide.A, .C, .G, .T, .A, .C, .G, .T] (by decide) (by decide)
  refine ⟨?_, ?_, ?_⟩
  · rw [h.1]; decide
  · rw [h.2.2.2.2.2.1]; rfl
  · rw [h.2.2.2.2.2.2.2.2.1]; rfl

end SelfAlignment

section AffineRuns

variable {χ : Type} [Character χ] [DecidableEq χ]

theorem gapCharge_eq_from (sc : SimpleScorer) (s : List χ) (i : Nat) :
    gapCharge sc s i = gapChargeFrom sc false s i := by
  simp [gapCharge, gapChargeFrom]

theorem seqAt_nil (i : Nat) : seqAt ([] : List χ) i = Character.MISSING := by
  simp [seqAt]

theorem seqAt_cons_zero (c : χ) (cs : List χ) : seqAt (c :: cs) 0 = c := by
  simp [seqAt]

theorem seqAt_cons_succ (c : χ) (cs : List χ) (i : Nat) :
    seqAt (c :: cs) (i + 1) = seqAt cs i := by
  simp [seqAt]

theorem gapChargeFrom_cons_succ (sc : SimpleScorer) (prev : Bool) (c : χ) (cs : List χ)
    (i : Nat) :
    gapChargeFrom sc prev (c :: cs) (i + 1)
      = gapChargeFrom sc (decide (c = Character.GAP)) cs i := by
  cases i with
  | zero => simp [gapChargeFrom, seqAt_cons_succ, seqAt_cons_zero]
  | succ j => simp [gapChargeFrom, seqAt_cons_succ]

theorem gapChargeFrom_cons_zero (sc : SimpleScorer) (prev : Bool) (c : χ) (cs : List χ) :
    gapChargeFrom sc prev (c :: cs) 0
      = (if c = Character.GAP then
          (if prev = true then sc.gapExtensionCost_ else sc.gapOpenCost_) else 0) := by
  simp [gapChargeFrom, seqAt_cons_zero]

theorem sum_map_range_succ_front (f : Nat → Int) (n : Nat) :
    ((List.range (n + 1)).map f).sum
      = f 0 + ((List.range n).map (fun i => f (i + 1))).sum := by
  rw [List.range_succ_eq_map]
  simp [List.map_map, Function.comp_def]

/-- The affine costs of the maximal GAP runs of the first `m` symbols add up
to the per-column gap charges. -/
theorem gapRunsFrom_cost (sc : SimpleScorer) (s : List χ) (cur m : Nat) :
    ((gapRunsFrom cur (s.take m)).map (affineCost sc)).sum
      = (if cur = 0 then 0 else affineCost sc cur)
        + ((List.range m).map (gapChargeFrom sc (decide (cur ≠ 0)) s)).sum := by
  have hgm := Character.gap_ne_missing (χ := χ)
  induction s generalizing cur m with
  | nil =>
    have hz : ((List.range m).map (gapChargeFrom sc (decide (cur ≠ 0)) ([] : List χ))).sum
        = 0 := by
      apply List.sum_eq_zero
      intro x hx
      obtain ⟨i, _, rfl⟩ := List.mem_map.mp hx
      simp [gapChargeFrom, seqAt_nil, Ne.symm hgm]
    rw [hz]
    by_cases hc : cur = 0 <;> simp [gapRunsFrom, hc]
  | cons c cs ih =>
    cases m with
    | zero => by_cases hc : cur = 0 <;> simp [gapRunsFrom, hc]
    | succ m =>
      rw [sum_map_range_succ_front]
      simp only [gapChargeFrom_cons_succ, gapChargeFrom_cons_zero, List.take_succ_cons]
      by_cases hg : c = Character.GAP
      · simp only [gapRunsFrom, hg, if_true, ih (cur + 1) m]
        by_cases hc : cur = 0
        · simp [hc, affineCost]
        · simp [hc, affineCost]
          ring
      · by_cases hc : cur = 0
        · simp [gapRunsFrom, hg, hc, ih 0 m]
        · simp [gapRunsFrom, hg, hc, ih 0 m]

/-- The runs of `gapRuns` are non-empty and cover exactly the GAP symbols. -/
theorem gapRunsFrom_sum (s : List χ) (cur : Nat) :
    (gapRunsFrom cur s).sum = cur + s.countP (fun c => decide (c = Character.GAP))
      ∧ ∀ L ∈ gapRunsFrom cur s, 0 < L := by
  induction s generalizing cur with
  | nil =>
    by_cases hc : cur = 0
    · simp [gapRunsFrom, hc]
    · simp [gapRunsFrom, hc]
      omega
  | cons c cs ih =>
    by_cases hg : c = Character.GAP
    · obtain ⟨h1, h2⟩ := ih (cur + 1)
      simp only [gapRunsFrom, hg, if_true]
      refine ⟨?_, h2⟩
      rw [h1]
      simp [List.countP_cons]
      omega
    · obtain ⟨h1, h2⟩ := ih 0
      by_cases hc : cur = 0
      · simp only [gapRunsFrom, hg, hc, if_false, if_true]
        refine ⟨?_, h2⟩
        rw [h1]
        simp [List.countP_cons, hg]
      · simp only [gapRunsFrom, hg, hc, if_false]
        refine ⟨?_, ?_⟩
        · rw [List.sum_cons, h1]
          simp [List.countP_cons, hg]
        · intro L hL
          rcases List.mem_cons.mp hL with h | h
          · omega
          · exact h2 L h

theorem gapRunsCost_take (sc : SimpleScorer) (s : List χ) (m : Nat) :
    gapRunsCost sc (s.take m) = ((List.range m).map (gapCharge sc s)).sum := by
  have h := gapRunsFrom_cost sc s 0 m
  simp only [if_true, zero_add, ne_eq, not_true_eq_false, decide_False] at h
  unfold gapRunsCost gapRuns
  rw [h]
  congr 1
  apply List.map_congr_left
  intro i _
  exact (gapCharge_eq_from sc s i).symm

theorem sum_map_add3 (f g h : Nat → Int) (l : List Nat) :
    (l.map (fun i => f i + g i + h i)).sum
      = (l.map h).sum + (l.map f).sum + (l.map g).sum := by
  induction l with
  | nil => simp
  | cons a l ih =>
    simp only [List.map_cons, List.sum_cons, ih]
    ring

/-- C4: for an equal-length pair without misalignment symbols and with query
end `qe > 0`, the score of `calcStats(ref, query, n)` is the sum of the
match weights of the columns `i < qe` (both sides neither GAP nor MISSING,
query symbol not an ambiguity), plus `gapOpen + (L-1) * gapExtend` for every
maximal run of `L` GAP symbols of `ref` inside `[0, qe)` and for every such
run of `query`, plus `n * frameShiftCost`. -/
theorem calcStats_affine_score (sc : SimpleScorer) (ref query : List χ) (n : Int)
    (qe : Nat) (hlen : ref.length = query.length)
    (hr : ∀ c ∈ ref, Character.isMisaligned c = false)
    (hq : ∀ c ∈ query, Character.isMisaligned c = false)
    (hqe : IsQueryEnd ref query qe) (hpos : 0 < qe) :
    (sc.calcStats ref query n).score
      = ((List.range qe).map (matchWeight sc ref query)).sum
        + gapRunsCost sc (ref.take qe) + gapRunsCost sc (query.take qe)
        + n * sc.frameShiftCost_ := by
  have hle := hqe.1
  rw [calcStats_of_queryEnd sc ref query n qe hqe (by omega)]
  simp only
  rw [walk_score_of_plain sc ref query hr hq qe (by omega) hle, sum_map_add3,
    gapRunsCost_take, gapRunsCost_take]

/-- C4 at the input of the claim: reference ACGTACGT, query ACG-ACGT, match
2, mismatch -2, gapOpen -10, gapExtend -1: the score is
`3*2 + (-10) + 4*2 = 4`. -/
theorem calcStats_affine_score_witness :
    ((SimpleScorer.mk (-10) (-1) 0 0 (ntScoreMatrix 2 (-2))).calcStats
        [Nucleotide.A, .C, .G, .T, .A, .C, .G, .T]
        [Nucleotide.A, .C, .G, .GAP, .A, .C, .G, .T] 0).score = 3 * 2 + (-10) + 4 * 2
      ∧ gapRuns [Nucleotide.A, .C, .G, .GAP, .A, .C, .G, .T] = [1]
      ∧ gapRuns [Nucleotide.A, .C, .G, .T, .A, .C, .G, .T] = []
      ∧ gapRuns [Nucleotide.GAP, .GAP, .A, .GAP, .MISSING, .GAP, .GAP, .GAP] = [2, 1, 3] := by
  have h := calcStats_affine_score (SimpleScorer.mk (-10) (-1) 0 0 (ntScoreMatrix 2 (-2)))
    [Nucleotide.A, .C, .G, .T, .A, .C, .G, .T]
    [Nucleotide.A, .C, .G, .GAP, .A, .C, .G, .T] 0 8
    (by decide) (by decide) (by decide) (by decide) (by decide)
  refine ⟨?_, by decide, by decide, by decide⟩
  rw [h]
  decide

end AffineRuns

section TrailingGap

variable {χ : Type} [Character χ] [DecidableEq χ]

/-- Score of `calcStats(ref, query, 0)` for a pair without misalignment
symbols, as a sum over the columns below the query end. -/
theorem calcStats_score_of_plain (sc : SimpleScorer) (ref query : List χ) (qe : Nat)
    (hr : ∀ c ∈ ref, Character.isMisaligned c = false)
    (hq : ∀ c ∈ query, Character.isMisaligned c = false)
    (hqe : IsQueryEnd ref query qe) (hqr : qe ≤ ref.length) :
    (sc.calcStats ref query 0).score
      = ((List.range qe).map (fun i =>
          gapCharge sc ref i + gapCharge sc query i + matchWeight sc ref query i)).sum := by
  by_cases h0 : qe = 0
  · subst h0
    rw [calcStats_of_queryEnd_zero sc ref query 0 hqe]
    simp [AlignmentStats.default]
  · rw [calcStats_of_queryEnd sc ref query 0 qe hqe h0]
    simp only
    rw [walk_score_of_plain sc ref query hr hq qe hqr hqe.1]
    simp

theorem gapCharge_take (sc : SimpleScorer) (s : List χ) (m i : Nat) (h : i < m) :
    gapCharge sc (s.take m) i = gapCharge sc s i := by
  unfold gapCharge
  rw [seqAt_take s m i h, seqAt_take s m (i - 1) (by omega)]

theorem matchWeight_take (sc : SimpleScorer) (ref query : List χ) (m i : Nat) (h : i < m) :
    matchWeight sc (ref.take m) (query.take m) i = matchWeight sc ref query i := by
  unfold matchWeight
  rw [seqAt_take ref m i h, seqAt_take query m i h]

theorem sum_open_then_extend (a b : Int) (L : Nat) (hL : 1 ≤ L) :
    ((List.range L).map (fun j => if j = 0 then a else b)).sum
      = a + ((L : Int) - 1) * b := by
  induction L with
  | zero => omega
  | succ L ih =>
    rw [list_sum_range_succ]
    by_cases h0 : L = 0
    · subst h0
      simp
    · rw [ih (by omega)]
      simp only [h0, if_false]
      push_cast
      ring

/-- C5 (amended): in an equal-length pair without misalignment symbols whose
query ends in a run of `L ≥ 1` GAP symbols opposite reference symbols that
are neither GAP nor MISSING, where the run is the whole query or the column
right before it has a query symbol other than GAP and both sides different
from MISSING, `calcStats` charges the run like any other:
`calcStats(ref, query, 0).score` is the score of the first `n - L` columns
plus `gapOpen + (L - 1) * gapExtend`. -/
theorem calcStats_trailing_query_gap (sc : SimpleScorer) (ref query : List χ) (L : Nat)
    (hlen : ref.length = query.length)
    (hr : ∀ c ∈ ref, Character.isMisaligned c = false)
    (hq : ∀ c ∈ query, Character.isMisaligned c = false)
    (hL : 1 ≤ L) (hLn : L ≤ query.length)
    (htail : ∀ i, query.length - L ≤ i → i < query.length →
      seqAt query i = Character.GAP ∧ seqAt ref i ≠ Character.GAP
        ∧ seqAt ref i ≠ Character.MISSING)
    (hprev : L < query.length →
      seqAt query (query.length - L - 1) ≠ Character.GAP
        ∧ bothPresent ref query (query.length - L - 1)) :
    (sc.calcStats ref query 0).score
      = (sc.calcStats (ref.take (query.length - L)) (query.take (query.length - L)) 0).score
        + (sc.gapOpenCost_ + ((L : Int) - 1) * sc.gapExtensionCost_) := by
  have hgm := Character.gap_ne_missing (χ := χ)
  obtain ⟨m, hm⟩ : ∃ m, m = query.length - L := ⟨_, rfl⟩
  have hnm : query.length = m + L := by omega
  rw [← hm]
  -- the whole pair
  have hqeFull : IsQueryEnd ref query query.length := by
    refine ⟨le_refl _, fun _ => ?_, fun i hi hle => by omega⟩
    obtain ⟨t1, t2, t3⟩ := htail (query.length - 1) (by omega) (by omega)
    exact ⟨t3, by rw [t1]; exact hgm⟩
  have hfull := calcStats_score_of_plain sc ref query query.length hr hq hqeFull (by omega)
  -- the first `m` columns
  have hr2 : ∀ c ∈ ref.take m, Character.isMisaligned c = false :=
    fun c hc => hr c (List.mem_of_mem_take hc)
  have hq2 : ∀ c ∈ query.take m, Character.isMisaligned c = false :=
    fun c hc => hq c (List.mem_of_mem_take hc)
  have hlq : (query.take m).length = m := by simp; omega
  have hlr : (ref.take m).length = m := by simp; omega
  have hqeCut : IsQueryEnd (ref.take m) (query.take m) m := by
    refine ⟨by omega, fun h0 => ?_, fun i hi hle => by omega⟩
    have hp := (hprev (by omega)).2
    have e : query.length - L - 1 = m - 1 := by omega
    rw [e] at hp
    unfold bothPresent at hp ⊢
    rw [seqAt_take ref m (m - 1) (by omega), seqAt_take query m (m - 1) (by omega)]
    exact hp
  have hcut := calcStats_score_of_plain sc (ref.take m) (query.take m) m hr2 hq2 hqeCut
    (by omega)
  have hcut2 : ((List.range m).map (fun i =>
        gapCharge sc (ref.take m) i + gapCharge sc (query.take m) i
          + matchWeight sc (ref.take m) (query.take m) i)).sum
      = ((List.range m).map (fun i =>
        gapCharge sc ref i + gapCharge sc query i + matchWeight sc ref query i)).sum := by
    apply sum_map_range_congr
    intro i hi
    rw [gapCharge_take sc ref m i hi, gapCharge_take sc query m i hi,
      matchWeight_take sc ref query m i hi]
  -- the run
  have hrun : ((List.range L).map (fun j =>
        gapCharge sc ref (m + j) + gapCharge sc query (m + j)
          + matchWeight sc ref query (m + j))).sum
      = sc.gapOpenCost_ + ((L : Int) - 1) * sc.gapExtensionCost_ := by
    rw [← sum_open_then_extend sc.gapOpenCost_ sc.gapExtensionCost_ L hL]
    apply sum_map_range_congr
    intro j hj
    obtain ⟨t1, t2, t3⟩ := htail (m + j) (by omega) (by omega)
    have g1 : gapCharge sc ref (m + j) = 0 := by simp [gapCharge, t2]
    have g2 : matchWeight sc ref query (m + j) = 0 := by simp [matchWeight, t1]
    rw [g1, g2]
    by_cases hj0 : j = 0
    · subst hj0
      have t1' : seqAt query m = Character.GAP := by simpa using t1
      by_cases hm0 : m = 0
      · subst hm0
        simp [gapCharge, t1']
      · have hp := (hprev (by omega)).1
        have e : query.length - L - 1 = m - 1 := by omega
        rw [e] at hp
        simp [gapCharge, t1', hm0, hp]
    · obtain ⟨u1, _, _⟩ := htail (m + j - 1) (by omega) (by omega)
      have hne : m + j ≠ 0 := by omega
      simp [gapCharge, t1, u1, hj0, hne]
  rw [hfull, hcut, hcut2, hnm, List.range_add, List.map_append, List.sum_append,
    List.map_map]
  rw [← hrun]
  rfl

end TrailingGap

/-- C5 fails as stated: reference `A C` against query `A -` ends in a run of
one query GAP opposite the reference symbol C, and with match 2, gapOpen -10
the score is `2 + (-10) = -8`, while the first column alone scores 2: the
trailing run is charged `gapOpen`. -/
theorem trailing_gap_counterexample :
    seqAt [Nucleotide.A, .GAP] 1 = Nucleotide.GAP
      ∧ seqAt [Nucleotide.A, .C] 1 ≠ Nucleotide.GAP
      ∧ seqAt [Nucleotide.A, .C] 1 ≠ Nucleotide.MISSING
      ∧ ((SimpleScorer.mk (-10) (-1) 0 0 (ntScoreMatrix 2 (-2))).calcStats
          [Nucleotide.A, .C] [Nucleotide.A, .GAP] 0).score = -8
      ∧ ((SimpleScorer.mk (-10) (-1) 0 0 (ntScoreMatrix 2 (-2))).calcStats
          ([Nucleotide.A, .C].take 1) ([Nucleotide.A, .GAP].take 1) 0).score = 2 := by
  decide

/-- C5 (amended) at a concrete pair: reference ACGT against query `A C - -`
scores `2 + 2 + (-10) + (-1) = -7`, the score 4 of the first two columns plus
`gapOpen + (2 - 1) * gapExtend = -11`. -/
theorem calcStats_trailing_query_gap_witness :
    ((SimpleScorer.mk (-10) (-1) 0 0 (ntScoreMatrix 2 (-2))).calcStats
        [Nucleotide.A, .C, .G, .T] [Nucleotide.A, .C, .GAP, .GAP] 0).score
      = ((SimpleScorer.mk (-10) (-1) 0 0 (ntScoreMatrix 2 (-2))).calcStats
          [Nucleotide.A, .C] [Nucleotide.A, .C] 0).score + (-10 + ((2 : Int) - 1) * (-1)) :=
  calcStats_trailing_query_gap (SimpleScorer.mk (-10) (-1) 0 0 (ntScoreMatrix 2 (-2)))
    [Nucleotide.A, .C, .G, .T] [Nucleotide.A, .C, .GAP, .GAP] 2
    (by decide) (by decide) (by decide) (by decide) (by decide) (by decide) (by decide)

section Frameshift

variable {χ : Type} [Character χ] [DecidableEq χ]

/-- The first loop of `calcStats` ends with `queryEnd == 0` exactly when no
column of the pair has both sides different from MISSING. -/
theorem findQueryEnd_eq_zero_iff (ref query : List χ) :
    findQueryEnd ref query query.length = 0
      ↔ ¬ ∃ i, i < query.length ∧ bothPresent ref query i := by
  constructor
  · intro h0
    rintro ⟨i, hi, hb⟩
    exact (findQueryEnd_spec ref query query.length).2 i hi (by omega) hb
  · intro hno
    by_contra hne
    have hb := (findQueryEnd_spec ref query query.length).1 hne
    have hle := findQueryEnd_le ref query query.length
    exact hno ⟨findQueryEnd ref query query.length - 1, by omega, hb⟩

/-- C11: for an equal-length pair and every `frameshiftCount` `n`: when some
column has both sides different from MISSING, `calcStats(ref, query, n)` is
`calcStats(ref, query, 0)` with `frameShifts` set to `n` and `score` raised by
`n * frameShiftCost`, every other field being the same; when no column has
both sides different from MISSING, the result is the default
`AlignmentStats` (score and every counter 0, `begin = end = -1`) whatever `n`
is. -/
theorem calcStats_frameshift (sc : SimpleScorer) (ref query : List χ) (n : Int)
    (hlen : ref.length = query.length) :
    ((∃ i, i < query.length ∧ bothPresent ref query i) →
        sc.calcStats ref query n =
          { sc.calcStats ref query 0 with
            score := (sc.calcStats ref query 0).score + n * sc.frameShiftCost_,
            frameShifts := n })
      ∧ ((¬ ∃ i, i < query.length ∧ bothPresent ref query i) →
        sc.calcStats ref query n =
          { score := 0, refLength := 0, begin := -1, end_ := -1, coverage := 0,
            matchCount := 0, identityCount := 0, insertEvents := 0, insertCount := 0,
            deleteEvents := 0, deleteCount := 0, frameShifts := 0, misaligned := 0,
            ambiguities := 0, stopCodons := 0 }) := by
  constructor
  · intro hex
    have hne : findQueryEnd ref query query.length ≠ 0 := by
      intro h0
      exact (findQueryEnd_eq_zero_iff ref query).mp h0 hex
    have hqe := isQueryEnd_findQueryEnd ref query
    rw [calcStats_of_queryEnd sc ref query n _ hqe hne,
      calcStats_of_queryEnd sc ref query 0 _ hqe hne]
    simp
  · intro hno
    have h0 := (findQueryEnd_eq_zero_iff ref query).mpr hno
    simp [SimpleScorer.calcStats, h0, AlignmentStats.default]

/-- C11 at concrete pairs, with frameShiftCost -100 and `n = 2`: reference
`A - C` against query `A D C` keeps every field of the `n = 0` result but
`frameShifts = 2` and the score, which is 200 lower; reference `A` against
query MISSING gives the default result. -/
theorem calcStats_frameshift_witness :
    ((SimpleScorer.mk (-6) (-2) (-100) (-20) (fun _ _ => 1)).calcStats
        [AminoAcid.A, .GAP, .C] [AminoAcid.A, .D, .C] 2).frameShifts = 2
      ∧ ((SimpleScorer.mk (-6) (-2) (-100) (-20) (fun _ _ => 1)).calcStats
        [AminoAcid.A, .GAP, .C] [AminoAcid.A, .D, .C] 2).score
        = ((SimpleScorer.mk (-6) (-2) (-100) (-20) (fun _ _ => 1)).calcStats
          [AminoAcid.A, .GAP, .C] [AminoAcid.A, .D, .C] 0).score + 2 * (-100)
      ∧ ((SimpleScorer.mk (-6) (-2) (-100) (-20) (fun _ _ => 1)).calcStats
        [AminoAcid.A, .GAP, .C] [AminoAcid.A, .D, .C] 2).score = -204
      ∧ ((SimpleScorer.mk (-6) (-2) (-100) (-20) (fun _ _ => 1)).calcStats
        [AminoAcid.A] [AminoAcid.MISSING] 2).frameShifts = 0
      ∧ ((SimpleScorer.mk (-6) (-2) (-100) (-20) (fun _ _ => 1)).calcStats
        [AminoAcid.A] [AminoAcid.MISSING] 2).begin = -1 := by
  have h1 := (calcStats_frameshift (SimpleScorer.mk (-6) (-2) (-100) (-20) (fun _ _ => 1))
    [AminoAcid.A, .GAP, .C] [AminoAcid.A, .D, .C] 2 (by decide)).1
    ⟨0, by decide, by decide⟩
  have h2 := (calcStats_frameshift (SimpleScorer.mk (-6) (-2) (-100) (-20) (fun _ _ => 1))
    [AminoAcid.A] [AminoAcid.MISSING] 2 (by decide)).2 (by decide)
  refine ⟨?_, ?_, by decide, ?_, ?_⟩
  · rw [h1]
  · rw [h1]
  · rw [h2]
  · rw [h2]

end Frameshift

end Aga
